import Mathlib

/-!  Verification development for the Mermaid Project IDE persistence and
remote-sync layer: a shallow embedding of `src/utils/normalization.js`,
`src/concepts/storageConcept.js`, and the GitHub provider adapter found in
`src/utils/eventBus.js`, together with theorems settling the design
specification's testable properties against that embedding. -/

namespace MermaidIDE

/-- JavaScript strings, embedded as lists of UTF-16 code units.  All text
relevant to the claims lies in the Basic Multilingual Plane, where one code
unit is one code point. -/
abbrev JsStr := List Nat

/-- Embed a Lean string literal as a JS string (one entry per code point). -/
def jstr (s : String) : JsStr := s.data.map Char.toNat

/-- Decimal rendering of a natural number, as the JS template literal
`${n}` renders a nonnegative integer (code 48 is the digit `0`). -/
def natToStr (n : Nat) : JsStr :=
  if n < 10 then [48 + n]
  else natToStr (n / 10) ++ [48 + n % 10]
termination_by n
decreasing_by exact Nat.div_lt_self (by omega) (by omega)

/-- Rendering of a JS integer-valued number, signs included. -/
def intToStr (i : Int) : JsStr :=
  if i < 0 then 45 :: natToStr i.natAbs else natToStr i.natAbs

/-- JS whitespace test used by `parseInt` when skipping leading space. -/
def isWs (c : Nat) : Bool :=
  c = 32 || c = 9 || c = 10 || c = 13 || c = 12 || c = 11

/-- Splits a leading run of decimal-digit code units from a JS string. -/
def takeDigits : JsStr → (JsStr × JsStr)
  | [] => ([], [])
  | c :: cs =>
    if 48 ≤ c ∧ c ≤ 57 then
      let p := takeDigits cs
      (c :: p.1, p.2)
    else ([], c :: cs)

/-- Numeric value of a list of decimal-digit code units. -/
def natVal (s : JsStr) : Nat := s.foldl (fun a c => 10 * a + (c - 48)) 0

/-- Sign-and-digits part of `parseInt`, after whitespace removal. -/
def parseIntCore : JsStr → Option Int
  | [] => none
  | c :: r =>
    if c = 45 then
      let p := takeDigits r
      if p.1 = [] then none else some (-(natVal p.1 : Int))
    else if c = 43 then
      let p := takeDigits r
      if p.1 = [] then none else some ((natVal p.1 : Int))
    else
      let p := takeDigits (c :: r)
      if p.1 = [] then none else some ((natVal p.1 : Int))

/-- JS `parseInt(s, 10)`: skip whitespace, read an optional sign and a
leading digit run; `none` stands for the JS result `NaN`. -/
def parseIntJs (s : JsStr) : Option Int := parseIntCore (s.dropWhile isWs)

theorem natToStr_ne_nil (n : Nat) : natToStr n ≠ [] := by
  rw [natToStr]
  split
  · simp
  · simp

theorem natToStr_all_digit (n : Nat) : ∀ c ∈ natToStr n, 48 ≤ c ∧ c ≤ 57 := by
  induction n using Nat.strong_induction_on with
  | _ n ih =>
    rw [natToStr]
    split
    · intro c hc
      simp at hc
      omega
    · intro c hc
      rw [List.mem_append] at hc
      rcases hc with h | h
      · exact ih (n / 10) (Nat.div_lt_self (by omega) (by omega)) c h
      · simp at h
        omega

theorem takeDigits_all (s : JsStr) (h : ∀ c ∈ s, 48 ≤ c ∧ c ≤ 57) :
    takeDigits s = (s, []) := by
  induction s with
  | nil => rfl
  | cons c cs ih =>
    rw [takeDigits]
    have hc := h c (by simp)
    rw [if_pos hc, ih (fun x hx => h x (by simp [hx]))]

theorem natVal_append_digit (a : JsStr) (d : Nat) :
    natVal (a ++ [d]) = 10 * natVal a + (d - 48) := by
  simp [natVal, List.foldl_append]

theorem natVal_natToStr (n : Nat) : natVal (natToStr n) = n := by
  induction n using Nat.strong_induction_on with
  | _ n ih =>
    rw [natToStr]
    split
    · simp [natVal]
    · rw [natVal_append_digit, ih (n / 10) (Nat.div_lt_self (by omega) (by omega))]
      omega

theorem dropWhile_isWs_natToStr (n : Nat) :
    (natToStr n).dropWhile isWs = natToStr n := by
  have hall := natToStr_all_digit n
  have hne := natToStr_ne_nil n
  cases hs : natToStr n with
  | nil => exact absurd hs hne
  | cons c cs =>
    have hc := hall c (by rw [hs]; simp)
    rw [List.dropWhile_cons]
    have : isWs c = false := by
      simp [isWs]
      omega
    rw [this]
    simp

theorem parseIntJs_natToStr (n : Nat) : parseIntJs (natToStr n) = some n := by
  have hall := natToStr_all_digit n
  have hne := natToStr_ne_nil n
  rw [parseIntJs, dropWhile_isWs_natToStr]
  cases hs : natToStr n with
  | nil => exact absurd hs hne
  | cons c cs =>
    have hc := hall c (by rw [hs]; simp)
    have h45 : c ≠ 45 := by omega
    have h43 : c ≠ 43 := by omega
    have htd : takeDigits (c :: cs) = (c :: cs, []) := by
      apply takeDigits_all
      intro x hx
      exact hall x (by rw [hs]; exact hx)
    have hval : natVal (c :: cs) = n := by
      rw [← hs]; exact natVal_natToStr n
    rw [parseIntCore]
    simp only [if_neg h45, if_neg h43, htd]
    simp [hval]

/-- JS `String.prototype.split(sep)` for a one-character separator. -/
def splitCode (sep : Nat) : JsStr → List JsStr
  | [] => [[]]
  | c :: cs =>
    if c = sep then [] :: splitCode sep cs
    else
      match splitCode sep cs with
      | [] => [[c]]
      | p :: ps => (c :: p) :: ps

/-- JS `Array.prototype.pop()` as used on the result of `split` (the
return value: the last element; `split` never returns an empty array). -/
def jsPop (l : List JsStr) : JsStr := l.getLastD []

theorem splitCode_ne_nil (sep : Nat) (s : JsStr) : splitCode sep s ≠ [] := by
  cases s with
  | nil => simp [splitCode]
  | cons c cs =>
    rw [splitCode]
    split
    · simp
    · split
      · simp
      · simp

theorem splitCode_no_sep (sep : Nat) (s : JsStr) (h : sep ∉ s) :
    splitCode sep s = [s] := by
  induction s with
  | nil => rfl
  | cons c cs ih =>
    rw [splitCode]
    have hc : c ≠ sep := fun hc => h (by simp [hc])
    rw [if_neg hc, ih (fun hm => h (by simp [hm]))]

theorem splitCode_len_two (sep : Nat) (s : JsStr) (h : sep ∈ s) :
    2 ≤ (splitCode sep s).length := by
  induction s with
  | nil => simp at h
  | cons c cs ih =>
    rw [splitCode]
    by_cases hc : c = sep
    · rw [if_pos hc]
      have := splitCode_ne_nil sep cs
      have : 1 ≤ (splitCode sep cs).length := by
        cases hcs : splitCode sep cs with
        | nil => exact absurd hcs this
        | cons p ps => simp
      simp
      omega
    · rw [if_neg hc]
      have hmem : sep ∈ cs := by
        rcases List.mem_cons.mp h with h1 | h1
        · exact absurd h1.symm hc
        · exact h1
      have h2 := ih hmem
      cases hcs : splitCode sep cs with
      | nil => exact absurd hcs (splitCode_ne_nil sep cs)
      | cons p ps =>
        rw [hcs] at h2
        simpa using h2

theorem jsPop_split_append (sep : Nat) (a b : JsStr) :
    jsPop (splitCode sep (a ++ sep :: b)) = jsPop (splitCode sep b) := by
  induction a with
  | nil =>
    simp only [List.nil_append, splitCode, if_pos rfl]
    rw [jsPop]
    cases hb : splitCode sep b with
    | nil => exact absurd hb (splitCode_ne_nil sep b)
    | cons p ps => simp [jsPop, List.getLastD_cons]
  | cons c a' ih =>
    simp only [List.cons_append, splitCode]
    by_cases hc : c = sep
    · rw [if_pos hc]
      rw [jsPop]
      cases hb : splitCode sep (a' ++ sep :: b) with
      | nil => exact absurd hb (splitCode_ne_nil sep (a' ++ sep :: b))
      | cons p ps =>
        rw [← ih, hb]
        simp [jsPop, List.getLastD_cons]
    · rw [if_neg hc]
      have hlen := splitCode_len_two sep (a' ++ sep :: b) (by simp)
      cases hb : splitCode sep (a' ++ sep :: b) with
      | nil => exact absurd hb (splitCode_ne_nil sep (a' ++ sep :: b))
      | cons p ps =>
        rw [hb] at hlen
        cases ps with
        | nil => simp at hlen
        | cons q qs =>
          rw [← ih, hb]
          simp [jsPop, List.getLastD_cons]

theorem jsPop_split_urn (sep : Nat) (a b : JsStr) (h : sep ∉ b) :
    jsPop (splitCode sep (a ++ sep :: b)) = b := by
  rw [jsPop_split_append, splitCode_no_sep sep b h]
  rfl

/-- Does `s` begin with `pat`?  (Helper for substring search.) -/
def headMatch : JsStr → JsStr → Bool
  | _, [] => true
  | [], _ :: _ => false
  | c :: cs, p :: ps => c = p && headMatch cs ps

/-- JS `String.prototype.includes(pat)`. -/
def containsSub (s pat : JsStr) : Bool :=
  match s with
  | [] => pat.isEmpty
  | _ :: cs => headMatch s pat || containsSub cs pat

/-- Embedded JavaScript values, as far as the persistence layer needs
them.  `date` is a Date object identified by its millisecond timestamp;
`invalidDate` is the Invalid Date produced by an unparsable constructor
argument; `nan` is the number NaN. -/
inductive JsValue where
  | undef
  | null
  | num (n : Int)
  | nan
  | str (s : JsStr)
  | date (ms : Int)
  | invalidDate
  | obj (fields : List (String × JsValue))

/-- A JavaScript object: own enumerable properties in insertion order. -/
abbrev JsObject := List (String × JsValue)

/-- Errors the embedded code can raise. -/
inductive JsErr where
  | typeError
  | rangeError
  | constraintError
  | dataError
  | dbNotInitialized
deriving DecidableEq

def lookupF (o : JsObject) (k : String) : Option JsValue :=
  match o with
  | [] => none
  | (k', v) :: rest => if k' = k then some v else lookupF rest k

/-- JS property read `o[k]`: an absent property reads as `undefined`. -/
def getF (o : JsObject) (k : String) : JsValue := (lookupF o k).getD (.undef)

/-- JS property write `o[k] = v`: overwrite in place, else append. -/
def setF (o : JsObject) (k : String) (v : JsValue) : JsObject :=
  match o with
  | [] => [(k, v)]
  | (k', v') :: rest => if k' = k then (k', v) :: rest else (k', v') :: setF rest k v

def hasK (o : JsObject) (k : String) : Bool := (lookupF o k).isSome

/-- Spread `{...o, ...l}`: the entries of `l` assigned into `o` in order. -/
def spreadInto (o : JsObject) (l : List (String × JsValue)) : JsObject :=
  l.foldl (fun acc p => setF acc p.1 p.2) o

/-- Evaluation of a JS object literal: assignments processed left to
right, a repeated key overwriting in place. -/
def buildObj (l : List (String × JsValue)) : JsObject := spreadInto [] l

/-- Rest element of a destructuring pattern: the own properties whose keys
were not matched by the pattern, in their original order. -/
def removeKeys (o : JsObject) (ks : List String) : JsObject :=
  o.filter (fun p => !decide (p.1 ∈ ks))

/-- JS truthiness. -/
def truthy : JsValue → Bool
  | .undef => false
  | .null => false
  | .num n => decide (n ≠ 0)
  | .nan => false
  | .str s => !s.isEmpty
  | .date _ => true
  | .invalidDate => true
  | .obj _ => true

/-- Value of `${x}` inside a template literal, for the value shapes the
embedded code interpolates. -/
def templateVal : JsValue → JsStr
  | .undef => jstr "undefined"
  | .null => jstr "null"
  | .num n => intToStr n
  | .nan => jstr "NaN"
  | .str s => s
  | .date _ => jstr "[object Date]"
  | .invalidDate => jstr "Invalid Date"
  | .obj _ => jstr "[object Object]"

/-- Strict equality test `v === 'lit'` against a string literal. -/
def strEq (v : JsValue) (s : JsStr) : Bool :=
  match v with
  | .str t => t == s
  | _ => false

/-- JS property access `v[k]` on an arbitrary value: throws a TypeError on
`undefined`/`null`, reads the property on an object, and yields
`undefined` on boxed primitives (none of the accessed names exist there). -/
def propAccess : JsValue → String → Except JsErr JsValue
  | .undef, _ => .error .typeError
  | .null, _ => .error .typeError
  | .obj o, k => .ok (getF o k)
  | _, _ => .ok .undef

theorem lookupF_setF_same (o : JsObject) (k : String) (v : JsValue) :
    lookupF (setF o k v) k = some v := by
  induction o with
  | nil => simp [setF, lookupF]
  | cons p rest ih =>
    rw [setF]
    by_cases h : p.1 = k
    · rw [if_pos h, lookupF, if_pos h]
    · rw [if_neg h, lookupF, if_neg h, ih]

theorem lookupF_setF_other (o : JsObject) (k k' : String) (v : JsValue)
    (h : k ≠ k') : lookupF (setF o k v) k' = lookupF o k' := by
  induction o with
  | nil => simp [setF, lookupF, h]
  | cons p rest ih =>
    rw [setF]
    by_cases hp : p.1 = k
    · rw [if_pos hp, lookupF, lookupF]
      have : p.1 ≠ k' := hp ▸ h
      rw [if_neg this, if_neg this]
    · rw [if_neg hp, lookupF, lookupF]
      by_cases hpk : p.1 = k'
      · rw [if_pos hpk, if_pos hpk]
      · rw [if_neg hpk, if_neg hpk, ih]

theorem lookupF_append (a b : JsObject) (k : String) :
    lookupF (a ++ b) k =
      match lookupF a k with
      | some v => some v
      | none => lookupF b k := by
  induction a with
  | nil => simp [lookupF]
  | cons p rest ih =>
    rw [List.cons_append, lookupF, lookupF]
    by_cases h : p.1 = k
    · rw [if_pos h, if_pos h]
    · rw [if_neg h, if_neg h, ih]

/-- The binding that a spread leaves for key `k`: the last entry of `l`
with that key, if any. -/
def lastBinding (l : List (String × JsValue)) (k : String) : Option JsValue :=
  lookupF l.reverse k

theorem lookupF_spreadInto (o : JsObject) (l : List (String × JsValue)) (k : String) :
    lookupF (spreadInto o l) k =
      match lastBinding l k with
      | some v => some v
      | none => lookupF o k := by
  induction l generalizing o with
  | nil => simp [spreadInto, lastBinding, lookupF]
  | cons p rest ih =>
    rw [spreadInto, List.foldl_cons]
    have step : List.foldl (fun acc q => setF acc q.1 q.2) (setF o p.1 p.2) rest =
        spreadInto (setF o p.1 p.2) rest := rfl
    rw [step, ih]
    simp only [lastBinding, List.reverse_cons, lookupF_append]
    cases h : lookupF rest.reverse k with
    | some v => simp only [h]
    | none =>
      simp only [h, lookupF]
      by_cases hp : p.1 = k
      · rw [if_pos hp, hp, lookupF_setF_same]
      · rw [if_neg hp, lookupF_setF_other _ _ _ _ hp]

theorem lookupF_removeKeys (o : JsObject) (ks : List String) (k : String) :
    lookupF (removeKeys o ks) k = if k ∈ ks then none else lookupF o k := by
  induction o with
  | nil => simp [removeKeys, lookupF]
  | cons p rest ih =>
    rw [removeKeys, List.filter_cons]
    by_cases hmem : p.1 ∈ ks
    · have : (!decide (p.1 ∈ ks)) = false := by simp [hmem]
      rw [this]
      simp only [Bool.false_eq_true, if_false]
      rw [removeKeys] at ih
      rw [ih]
      by_cases hk : k ∈ ks
      · rw [if_pos hk, if_pos hk]
      · rw [if_neg hk, if_neg hk, lookupF]
        have : p.1 ≠ k := fun h => hk (h ▸ hmem)
        rw [if_neg this]
    · have : (!decide (p.1 ∈ ks)) = true := by simp [hmem]
      rw [this]
      simp only [if_true]
      rw [lookupF]
      by_cases hp : p.1 = k
      · rw [if_pos hp]
        have : k ∉ ks := hp ▸ hmem
        rw [if_neg this, lookupF, if_pos hp]
      · rw [if_neg hp]
        rw [removeKeys] at ih
        rw [ih]
        by_cases hk : k ∈ ks
        · rw [if_pos hk, if_pos hk]
        · rw [if_neg hk, if_neg hk, lookupF, if_neg hp]

/-- Civil date of a day count since 1970-01-01 (the standard
`civil_from_days` algorithm; our uses have nonnegative input). -/
def civilFromDays (z0 : Int) : Int × Int × Int :=
  let z := z0 + 719468
  let era := z / 146097
  let doe := z - era * 146097
  let yoe := (doe - doe / 1460 + doe / 36524 - doe / 146096) / 365
  let y := yoe + era * 400
  let doy := doe - (365 * yoe + yoe / 4 - yoe / 100)
  let mp := (5 * doy + 2) / 153
  let d := doy - (153 * mp + 2) / 5 + 1
  let m := mp + (if mp < 10 then 3 else -9)
  (y + (if m ≤ 2 then 1 else 0), m, d)

/-- Day count since 1970-01-01 of a civil date (`days_from_civil`). -/
def daysFromCivil (y0 m d : Int) : Int :=
  let y := y0 - (if m ≤ 2 then 1 else 0)
  let era := y / 400
  let yoe := y - era * 400
  let doy := (153 * (m + (if 2 < m then -3 else 9)) + 2) / 5 + d - 1
  let doe := yoe * 365 + yoe / 4 - yoe / 100 + doy
  era * 146097 + doe - 719468

def padToLen (len : Nat) (s : JsStr) : JsStr :=
  List.replicate (len - s.length) 48 ++ s

def pad2 (n : Int) : JsStr := padToLen 2 (natToStr n.toNat)

def pad3 (n : Int) : JsStr := padToLen 3 (natToStr n.toNat)

def pad4 (n : Int) : JsStr := padToLen 4 (natToStr n.toNat)

/-- `Date.prototype.toISOString` for timestamps between 1970 and the year
9999: `YYYY-MM-DDTHH:mm:ss.sssZ`. -/
def isoOfMs (ms : Int) : JsStr :=
  let days := ms / 86400000
  let rem := ms % 86400000
  let ymd := civilFromDays days
  pad4 ymd.1 ++ [45] ++ pad2 ymd.2.1 ++ [45] ++ pad2 ymd.2.2 ++ [84]
    ++ pad2 (rem / 3600000) ++ [58] ++ pad2 ((rem / 60000) % 60) ++ [58]
    ++ pad2 ((rem / 1000) % 60) ++ [46] ++ pad3 (rem % 1000) ++ [90]

def allDigits (s : JsStr) : Bool := s.all (fun c => 48 ≤ c && c ≤ 57)

/-- The ISO-8601 branch of the `new Date(string)` parser: accepts exactly
the canonical shape `toISOString` produces and recovers the timestamp. -/
def isoParse (s : JsStr) : Option Int :=
  match s with
  | [y1, y2, y3, y4, 45, o1, o2, 45, d1, d2, 84,
     h1, h2, 58, n1, n2, 58, t1, t2, 46, f1, f2, f3, 90] =>
    if allDigits [y1, y2, y3, y4, o1, o2, d1, d2, h1, h2, n1, n2, t1, t2, f1, f2, f3] then
      some (daysFromCivil (natVal [y1, y2, y3, y4]) (natVal [o1, o2]) (natVal [d1, d2]) * 86400000
        + (natVal [h1, h2] : Int) * 3600000 + (natVal [n1, n2] : Int) * 60000
        + (natVal [t1, t2] : Int) * 1000 + (natVal [f1, f2, f3] : Int))
    else none
  | _ => none

/-- The `new Date(x)` constructor on the argument shapes the embedded code
passes it. -/
def jsNewDate : JsValue → JsValue
  | .date ms => .date ms
  | .invalidDate => .invalidDate
  | .num n => .date n
  | .null => .date 0
  | .str s =>
    match isoParse s with
    | some ms => .date ms
    | none => .invalidDate
  | _ => .invalidDate

/-- `d.toISOString()`: throws a RangeError on an Invalid Date. -/
def toISOStringJs : JsValue → Except JsErr JsStr
  | .date ms => .ok (isoOfMs ms)
  | .invalidDate => .error .rangeError
  | _ => .error .typeError

/-- UTF-8 encoding of one code point. -/
def utf8EncodeCp (c : Nat) : List Nat :=
  if c < 128 then [c]
  else if c < 2048 then [192 + c / 64, 128 + c % 64]
  else if c < 65536 then [224 + c / 4096, 128 + (c / 64) % 64, 128 + c % 64]
  else [240 + c / 262144, 128 + (c / 4096) % 64, 128 + (c / 64) % 64, 128 + c % 64]

/-- `new TextEncoder().encode(s)`: the UTF-8 bytes of the string. -/
def utf8Encode (s : JsStr) : List Nat := (s.map utf8EncodeCp).flatten

/-- Character code of the Base64 alphabet at index `n` (0–63). -/
def b64Code (n : Nat) : Nat :=
  if n < 26 then 65 + n
  else if n < 52 then 97 + (n - 26)
  else if n < 62 then 48 + (n - 52)
  else if n = 62 then 43
  else 47

/-- Index in the Base64 alphabet of character code `c` (valid inputs). -/
def b64Index (c : Nat) : Nat :=
  if 65 ≤ c ∧ c ≤ 90 then c - 65
  else if 97 ≤ c ∧ c ≤ 122 then c - 97 + 26
  else if 48 ≤ c ∧ c ≤ 57 then c - 48 + 52
  else if c = 43 then 62
  else 63

/-- `btoa`: Base64 of a binary string whose character codes are the byte
values (code 61 is the padding character `=`). -/
def btoa : List Nat → JsStr
  | [] => []
  | [a] => [b64Code (a / 4), b64Code (a % 4 * 16), 61, 61]
  | [a, b] => [b64Code (a / 4), b64Code (a % 4 * 16 + b / 16), b64Code (b % 16 * 4), 61]
  | a :: b :: c :: rest =>
    b64Code (a / 4) :: b64Code (a % 4 * 16 + b / 16)
      :: b64Code (b % 16 * 4 + c / 64) :: b64Code (c % 64) :: btoa rest

/-- `atob`: decodes Base64 into a binary string, one character per byte.
No UTF-8 interpretation of the resulting bytes takes place. -/
def atob : JsStr → List Nat
  | [a, b, 61, 61] => [b64Index a * 4 + b64Index b / 16]
  | [a, b, c, 61] =>
    [b64Index a * 4 + b64Index b / 16, b64Index b % 16 * 16 + b64Index c / 4]
  | a :: b :: c :: d :: rest =>
    (b64Index a * 4 + b64Index b / 16)
      :: (b64Index b % 16 * 16 + b64Index c / 4)
      :: (b64Index c % 4 * 64 + b64Index d) :: atob rest
  | _ => []

/-- `unicodeBtoa` from `src/utils/eventBus.js`: UTF-8 bytes first, then
`String.fromCharCode` (the identity on the byte list) and `btoa`. -/
def unicodeBtoa (s : JsStr) : JsStr := btoa (utf8Encode s)

/-- `v.split(':').pop()` as the normalization code applies it to a
property value: only strings have `split`; anything else throws. -/
def splitColonPop : JsValue → Except JsErr JsStr
  | .str s => .ok (jsPop (splitCode 58 s))
  | _ => .error .typeError

/-- `parseInt` lifted back into a JS value (`none` is `NaN`). -/
def numOfParse : Option Int → JsValue
  | some n => .num n
  | none => .nan

/-- `normalizeDiagram` from `src/utils/normalization.js`. -/
def normalizeDiagram (data : JsValue) : Except JsErr JsValue :=
  match data with
  | .obj o =>
    if truthy (getF o "@context") && strEq (getF o "@type") (jstr "bfo:BFO_0000031") then
      let rest := removeKeys o ["@context", "@id", "@type", "schema:name", "schema:text",
        "bfo:BFO_0000129", "schema:dateCreated", "schema:dateModified"]
      do
        let idStr ← splitColonPop (getF o "@id")
        let memb ← propAccess (getF o "bfo:BFO_0000129") "@id"
        let pidStr ← splitColonPop memb
        .ok (.obj (spreadInto (buildObj [
          ("id", numOfParse (parseIntJs idStr)),
          ("projectId", numOfParse (parseIntJs pidStr)),
          ("title", getF o "schema:name"),
          ("content", getF o "schema:text"),
          ("createdAt", if truthy (getF o "schema:dateCreated") then
            jsNewDate (getF o "schema:dateCreated") else .undef),
          ("updatedAt", if truthy (getF o "schema:dateModified") then
            jsNewDate (getF o "schema:dateModified") else .undef)]) rest))
    else .ok data
  | _ => .ok data

/-- `normalizeProject` from `src/utils/normalization.js`. -/
def normalizeProject (data : JsValue) : Except JsErr JsValue :=
  match data with
  | .obj o =>
    if truthy (getF o "@context") && strEq (getF o "@type") (jstr "bfo:BFO_0000027") then
      let rest := removeKeys o ["@context", "@id", "@type", "schema:name",
        "schema:dateCreated", "schema:dateModified"]
      do
        let idStr ← splitColonPop (getF o "@id")
        .ok (.obj (spreadInto (buildObj [
          ("id", numOfParse (parseIntJs idStr)),
          ("name", getF o "schema:name"),
          ("createdAt", if truthy (getF o "schema:dateCreated") then
            jsNewDate (getF o "schema:dateCreated") else .undef),
          ("updatedAt", if truthy (getF o "schema:dateModified") then
            jsNewDate (getF o "schema:dateModified") else .undef)]) rest))
    else .ok data
  | _ => .ok data

/-- `toDiagramLD` from `src/utils/normalization.js`.  The only way it can
throw is `toISOString` on an Invalid Date. -/
def toDiagramLD (diagram : JsObject) : Except JsErr JsObject :=
  if truthy (getF diagram "@context") then .ok diagram
  else
    let id := getF diagram "id"
    let projectId := getF diagram "projectId"
    let rest := removeKeys diagram ["id", "projectId", "title", "content",
      "createdAt", "updatedAt", "lastModifiedRemoteSha"]
    do
      let created ← if truthy (getF diagram "createdAt") then
          (toISOStringJs (jsNewDate (getF diagram "createdAt"))).map JsValue.str
        else .ok .undef
      let modified ← if truthy (getF diagram "updatedAt") then
          (toISOStringJs (jsNewDate (getF diagram "updatedAt"))).map JsValue.str
        else .ok .undef
      let ldObject := spreadInto (buildObj [
        ("@context", .str (jstr "https://mermaid-ide.org/context/v1.jsonld")),
        ("@id", .str (jstr "urn:mermaid-ide:diagram:" ++ templateVal id)),
        ("@type", .str (jstr "bfo:BFO_0000031")),
        ("schema:name", getF diagram "title"),
        ("schema:text", getF diagram "content"),
        ("bfo:BFO_0000129", .obj [("@id",
          .str (jstr "urn:mermaid-ide:project:" ++ templateVal projectId))]),
        ("schema:dateCreated", created),
        ("schema:dateModified", modified),
        ("lastModifiedRemoteSha", getF diagram "lastModifiedRemoteSha"),
        ("_name_for_index", getF diagram "title"),
        ("projectId", projectId)]) rest
      .ok (if truthy id then setF ldObject "id" id else ldObject)

/-- `toProjectLD` from `src/utils/normalization.js`. -/
def toProjectLD (project : JsObject) : Except JsErr JsObject :=
  if truthy (getF project "@context") then .ok project
  else
    let id := getF project "id"
    let rest := removeKeys project ["id", "name", "createdAt", "updatedAt"]
    do
      let created ← if truthy (getF project "createdAt") then
          (toISOStringJs (jsNewDate (getF project "createdAt"))).map JsValue.str
        else .ok .undef
      let modified ← if truthy (getF project "updatedAt") then
          (toISOStringJs (jsNewDate (getF project "updatedAt"))).map JsValue.str
        else .ok .undef
      let ldObject := spreadInto (buildObj [
        ("@context", .str (jstr "https://mermaid-ide.org/context/v1.jsonld")),
        ("@id", .str (jstr "urn:mermaid-ide:project:" ++ templateVal id)),
        ("@type", .str (jstr "bfo:BFO_0000027")),
        ("schema:name", getF project "name"),
        ("schema:dateCreated", created),
        ("schema:dateModified", modified),
        ("_name_for_index", getF project "name")]) rest
      .ok (if truthy id then setF ldObject "id" id else ldObject)

/-- IndexedDB keys, restricted to the shapes this schema stores. -/
inductive IKey where
  | num (n : Int)
  | str (s : JsStr)
  | time (ms : Int)
  | pair (a b : IKey)
deriving DecidableEq

/-- The valid IndexedDB key carried by a property value, when any. -/
def jsToKey : JsValue → Option IKey
  | .num n => some (.num n)
  | .str s => some (.str s)
  | .date ms => some (.time ms)
  | _ => none

/-- The value read back from a key (a generated key is always numeric). -/
def keyToJs : IKey → JsValue
  | .num n => .num n
  | .str s => .str s
  | .time ms => .date ms
  | .pair _ _ => .obj []

/-- One IndexedDB object store: the records with their primary keys, and
the auto-increment key generator (first generated key is 1). -/
structure ObjectStore where
  records : List (IKey × JsObject)
  nextId : Int

def freshStore : ObjectStore := ⟨[], 1⟩

/-- The three stores `storageConcept.init` creates at schema version 3. -/
structure DB where
  projects : ObjectStore
  diagrams : ObjectStore
  syncQueue : ObjectStore

def freshDB : DB := ⟨freshStore, freshStore, freshStore⟩

/-- The module handle `storageConcept.state.db`; `none` models the null
handle of an uninitialized or unexpectedly closed database. -/
abbrev StorageState := Option DB

inductive StoreName where
  | projects
  | diagrams
  | syncQueue
deriving DecidableEq

def DB.store : DB → StoreName → ObjectStore
  | db, .projects => db.projects
  | db, .diagrams => db.diagrams
  | db, .syncQueue => db.syncQueue

def DB.setStore : DB → StoreName → ObjectStore → DB
  | db, .projects, os => { db with projects := os }
  | db, .diagrams, os => { db with diagrams := os }
  | db, .syncQueue, os => { db with syncQueue := os }

/-- Key of a record in the unique index of its store, when the record is
indexed: projects carry `_name_for_index` (unique), diagrams carry
`['projectId', '_name_for_index']` (unique composite); the sync queue has
no unique index.  A record whose key-path values are not valid keys does
not enter the index. -/
def uniqueKeyOf : StoreName → JsObject → Option IKey
  | .projects, r => jsToKey (getF r "_name_for_index")
  | .diagrams, r =>
    match jsToKey (getF r "projectId"), jsToKey (getF r "_name_for_index") with
    | some a, some b => some (.pair a b)
    | _, _ => none
  | .syncQueue, _ => none

/-- Does storing `item` under primary key `k` violate the store's unique
index against some other record? -/
def uniqueConflict (name : StoreName) (os : ObjectStore) (k : IKey) (item : JsObject) : Bool :=
  os.records.any (fun p => (!decide (p.1 = k)) &&
    match uniqueKeyOf name item, uniqueKeyOf name p.2 with
    | some a, some b => decide (a = b)
    | _, _ => false)

def replaceRec (l : List (IKey × JsObject)) (k : IKey) (r : JsObject) :
    List (IKey × JsObject) :=
  match l with
  | [] => [(k, r)]
  | (k', r') :: rest => if k' = k then (k, r) :: rest else (k', r') :: replaceRec rest k r

/-- `IDBObjectStore.put` on a store with key path `id` and autoIncrement:
resolve the primary key (injecting a generated key at the key path and
advancing the generator past any explicit numeric key), enforce the unique
index, then insert or replace.  A constraint violation aborts the
transaction, leaving the store untouched. -/
def osPut (name : StoreName) (os : ObjectStore) (item : JsObject) :
    Except JsErr (IKey × ObjectStore) :=
  let resolved : Except JsErr (IKey × JsObject × Int) :=
    match getF item "id" with
    | .undef => .ok (.num os.nextId, setF item "id" (.num os.nextId), os.nextId + 1)
    | v =>
      match jsToKey v with
      | some k =>
        let next := match k with
          | .num n => if os.nextId ≤ n then n + 1 else os.nextId
          | _ => os.nextId
        .ok (k, item, next)
      | none => .error .dataError
  match resolved with
  | .error e => .error e
  | .ok (k, item', next) =>
    if uniqueConflict name os k item' then .error .constraintError
    else .ok (k, ⟨replaceRec os.records k item', next⟩)

/-- `IDBObjectStore.get`: `undefined` when no record has the key. -/
def osGet (os : ObjectStore) (k : IKey) : JsValue :=
  match os.records.find? (fun p => decide (p.1 = k)) with
  | some p => .obj p.2
  | none => (.undef)

/-- `storageConcept.actions._put`: rejects on a null handle before any
transaction exists, so the stores are untouched in that case. -/
def _put (s : StorageState) (name : StoreName) (item : JsObject) :
    Except JsErr IKey × StorageState :=
  match s with
  | none => (.error .dbNotInitialized, s)
  | some db =>
    match osPut name (db.store name) item with
    | .error e => (.error e, s)
    | .ok (k, os') => (.ok k, some (db.setStore name os'))

/-- `storageConcept.actions._get`, normalization at retrieval included. -/
def _get (s : StorageState) (name : StoreName) (key : Int) :
    Except JsErr JsValue × StorageState :=
  match s with
  | none => (.error .dbNotInitialized, s)
  | some db =>
    let raw := osGet (db.store name) (.num key)
    match name with
    | .projects => (normalizeProject raw, s)
    | .diagrams => (normalizeDiagram raw, s)
    | .syncQueue => (.ok raw, s)

/-- `storageConcept.actions._delete` (deleting an absent key succeeds). -/
def _delete (s : StorageState) (name : StoreName) (key : Int) :
    Except JsErr Unit × StorageState :=
  match s with
  | none => (.error .dbNotInitialized, s)
  | some db =>
    let os := db.store name
    let os' : ObjectStore :=
      ⟨os.records.filter (fun p => !decide (p.1 = IKey.num key)), os.nextId⟩
    (.ok (), some (db.setStore name os'))

/-- `storageConcept.actions._getAll`. -/
def _getAll (s : StorageState) (name : StoreName) :
    Except JsErr (List JsValue) × StorageState :=
  match s with
  | none => (.error .dbNotInitialized, s)
  | some db => (.ok ((db.store name).records.map (fun p => JsValue.obj p.2)), s)

/-- `storageConcept.actions.getAllProjects`. -/
def getAllProjects (s : StorageState) : Except JsErr (List JsValue) × StorageState :=
  match _getAll s .projects with
  | (.error e, s') => (.error e, s')
  | (.ok raw, s') => (raw.mapM normalizeProject, s')

/-- `storageConcept.actions.addDiagram`: convert to JSON-LD, store, then
reflect the assigned key into `id` and the `@id` URN and store again. -/
def addDiagram (s : StorageState) (diagramData : JsObject) :
    Except JsErr IKey × StorageState :=
  let diagramWithId := spreadInto (buildObj [("id", getF diagramData "id")]) diagramData
  match toDiagramLD diagramWithId with
  | .error e => (.error e, s)
  | .ok diagramLD =>
    match _put s .diagrams diagramLD with
    | (.error e, s') => (.error e, s')
    | (.ok newId, s') =>
      let fixed := setF (setF diagramLD "id" (keyToJs newId)) "@id"
        (.str (jstr "urn:mermaid-ide:diagram:" ++ templateVal (keyToJs newId)))
      _put s' .diagrams fixed

/-- `storageConcept.actions.getDiagram`. -/
def getDiagram (s : StorageState) (diagramId : Int) :
    Except JsErr JsValue × StorageState :=
  _get s .diagrams diagramId

/-- `storageConcept.actions.updateDiagram`. -/
def updateDiagram (s : StorageState) (diagramData : JsObject) :
    Except JsErr IKey × StorageState :=
  match toDiagramLD diagramData with
  | .error e => (.error e, s)
  | .ok diagramLD => _put s .diagrams diagramLD

/-- `storageConcept.actions.getProject`. -/
def getProject (s : StorageState) (projectId : Int) :
    Except JsErr JsValue × StorageState :=
  _get s .projects projectId

/-- `storageConcept.actions.deleteDiagram`. -/
def deleteDiagram (s : StorageState) (diagramId : Int) :
    Except JsErr Unit × StorageState :=
  _delete s .diagrams diagramId

/-- `storageConcept.actions.addProject`. -/
def addProject (s : StorageState) (projectData : JsObject) :
    Except JsErr IKey × StorageState :=
  let projectWithId := spreadInto (buildObj [("id", getF projectData "id")]) projectData
  match toProjectLD projectWithId with
  | .error e => (.error e, s)
  | .ok projectLD =>
    match _put s .projects projectLD with
    | (.error e, s') => (.error e, s')
    | (.ok newId, s') =>
      let fixed := setF (setF projectLD "id" (keyToJs newId)) "@id"
        (.str (jstr "urn:mermaid-ide:project:" ++ templateVal (keyToJs newId)))
      _put s' .projects fixed

/-- `storageConcept.actions.updateProject`. -/
def updateProject (s : StorageState) (projectData : JsObject) :
    Except JsErr IKey × StorageState :=
  match toProjectLD projectData with
  | .error e => (.error e, s)
  | .ok projectLD => _put s .projects projectLD

/-- `storageConcept.actions.deleteProject`: a plain `_delete` on the
projects store — the diagrams store is not touched here. -/
def deleteProject (s : StorageState) (projectId : Int) :
    Except JsErr Unit × StorageState :=
  _delete s .projects projectId

/-- `storageConcept.actions.deleteDiagramsByProjectId`: a cursor over the
`projectId` index deleting every match. -/
def deleteDiagramsByProjectId (s : StorageState) (projectId : Int) :
    Except JsErr Unit × StorageState :=
  match s with
  | none => (.error .dbNotInitialized, s)
  | some db =>
    let remaining := db.diagrams.records.filter
      (fun p => !decide (jsToKey (getF p.2 "projectId") = some (.num projectId)))
    (.ok (), some { db with diagrams := ⟨remaining, db.diagrams.nextId⟩ })

/-- `storageConcept.actions.getSyncQueueItems`. -/
def getSyncQueueItems (s : StorageState) : Except JsErr (List JsValue) × StorageState :=
  _getAll s .syncQueue

/-- `storageConcept.actions.addSyncQueueItem`. -/
def addSyncQueueItem (s : StorageState) (item : JsObject) :
    Except JsErr IKey × StorageState :=
  _put s .syncQueue item

/-- `storageConcept.actions.deleteSyncQueueItem`. -/
def deleteSyncQueueItem (s : StorageState) (itemId : Int) :
    Except JsErr Unit × StorageState :=
  _delete s .syncQueue itemId

/-- `storageConcept.actions.getDiagramsByProjectId`: `getAll` on the
`projectId` index, each hit normalized before being returned. -/
def getDiagramsByProjectId (s : StorageState) (projectId : Int) :
    Except JsErr (List JsValue) × StorageState :=
  match s with
  | none => (.error .dbNotInitialized, s)
  | some db =>
    let hits := db.diagrams.records.filter
      (fun p => decide (jsToKey (getF p.2 "projectId") = some (.num projectId)))
    ((hits.map (fun p => JsValue.obj p.2)).mapM normalizeDiagram, s)

/-- One scripted provider response: HTTP status, the `Retry-After` header
when present, the `message` the error paths read from the body, and the
JSON body a success resolves with. -/
structure HttpResp where
  status : Nat
  retryAfter : Option JsStr
  errMessage : JsStr
  body : JsValue

/-- `Response.ok`: status in the 200–299 range. -/
def respOk (status : Nat) : Bool := 200 ≤ status && status < 300

/-- Outcome of `_githubFetch`: a resolved JSON body, a raised `Error`
(with its message), or a network-level failure (`fetch` itself rejected —
modelled by running out of scripted responses). -/
inductive FetchResult where
  | success (body : JsValue)
  | failure (msg : JsStr)
  | networkError

def apiErrMsg (status : Nat) (msg : JsStr) : JsStr :=
  jstr "[GitHub API Error] " ++ natToStr status ++ jstr ": " ++ msg

/-- Message of the specialised error raised when the retries are exhausted
and the last error mentioned 403 (it advises the repo / public_repo token
scopes; quote marks of the original text omitted). -/
def scopeErrMsg : JsStr :=
  jstr "[GitHub Adapter] A 403 Forbidden error occurred. Please ensure your Personal Access Token has the repo scope (for private repos) or public_repo scope (for public repos)."

/-- Message of the generic retries-exhausted error. -/
def retriesFailMsg (retries : Nat) (lastMsg : Option JsStr) : JsStr :=
  jstr "[GitHub Adapter] Request failed after " ++ natToStr retries
    ++ jstr " retries. Last error: "
    ++ (match lastMsg with | some m => m | none => jstr "undefined")

/-- The code after the retry loop of `_githubFetch`: the specialised
scope message when the last error mentioned 403, the generic
retries-exhausted message otherwise. -/
def fetchExhausted (retries : Nat) (lastError : Option JsStr) (waits : List Int) :
    FetchResult × List Int :=
  match lastError with
  | some m =>
    if containsSub m (jstr "403") then (.failure scopeErrMsg, waits)
    else (.failure (retriesFailMsg retries (some m)), waits)
  | none => (.failure (retriesFailMsg retries none), waits)

/-- The retry loop of `_githubFetch` in `src/utils/eventBus.js`, driven by
the script of responses successive `fetch` calls receive.  Returns the
outcome together with the list of `_sleep` delays performed (ms). -/
def githubFetchLoop (retries : Nat) (backoff : Int) :
    Nat → Option JsStr → List HttpResp → List Int → FetchResult × List Int
  | i, lastError, [], waits =>
    if i < retries then (.networkError, waits) else fetchExhausted retries lastError waits
  | i, lastError, r :: rest, waits =>
    if i < retries then
      if respOk r.status then
        if r.status = 204 then (.success .null, waits) else (.success r.body, waits)
      else if r.status = 403 || r.status = 429 then
        let msg := apiErrMsg r.status r.errMessage
        let computed : Int := backoff * 2 ^ i
        let waitTime : Int :=
          match r.retryAfter with
          | some ra =>
            match parseIntJs ra with
            | some n => n * 1000
            | none => computed
          | none => computed
        githubFetchLoop retries backoff (i + 1) (some msg) rest (waits ++ [waitTime])
      else
        (.failure (apiErrMsg r.status r.errMessage), waits)
    else fetchExhausted retries lastError waits

/-- `_githubFetch` with explicit `retries` and `backoff` arguments. -/
def githubFetch (resps : List HttpResp) (retries : Nat) (backoff : Int) :
    FetchResult × List Int :=
  githubFetchLoop retries backoff 0 none resps []

/-- `_githubFetch` at its default configuration: `retries = 3`,
`backoff = 1000`. -/
def githubFetchDefault (resps : List HttpResp) : FetchResult × List Int :=
  githubFetch resps 3 1000

/-- The content encoding `putContents` performs before upload. -/
def putContentsEncode (content : JsStr) : JsStr := unicodeBtoa content

/-- The content decoding `getContents` performs on the downloaded base64:
`atob(response.content)`, one character per byte, with no UTF-8 decoding
of the resulting byte string. -/
def getContentsDecode (b64 : JsStr) : JsStr := atob b64

theorem parseIntJs_intToStr (i : Int) : parseIntJs (intToStr i) = some i := by
  rw [intToStr]
  split
  · rename_i hneg
    rw [parseIntJs]
    have hall := natToStr_all_digit i.natAbs
    have hne := natToStr_ne_nil i.natAbs
    have hdw : List.dropWhile isWs (45 :: natToStr i.natAbs) = 45 :: natToStr i.natAbs := by
      rw [List.dropWhile_cons]
      have h45 : isWs 45 = false := rfl
      rw [h45]
      simp
    rw [hdw, parseIntCore]
    simp only [if_pos rfl]
    rw [takeDigits_all (natToStr i.natAbs) hall]
    simp only [if_neg hne]
    rw [natVal_natToStr]
    have hab : -(i.natAbs : Int) = i := by omega
    simp [hab]
    rw [abs_of_neg hneg, neg_neg]
  · rename_i hpos
    rw [parseIntJs_natToStr]
    have hab : (i.natAbs : Int) = i := by omega
    simp [hab]

/-- C1: pushing a string with multi-byte characters through the
`putContents` encoding (`unicodeBtoa`: UTF-8 bytes, then base64) and then
through the `getContents` decoding (`atob` alone) does not return the
original string — it returns the raw UTF-8 byte string read as one
character per byte, so the adapter corrupts non-ASCII content. -/
theorem unicode_roundtrip_fails_on_cafe :
    getContentsDecode (putContentsEncode (jstr "café 中文")) =
      utf8Encode (jstr "café 中文") ∧
    getContentsDecode (putContentsEncode (jstr "café 中文")) ≠ jstr "café 中文" :=
  ⟨by decide, by decide⟩

/-- C9: a record carrying the diagram semantic markers (`@context`
present, `@type` equal to `bfo:BFO_0000031`) but lacking the
`bfo:BFO_0000129` membership property makes `normalizeDiagram` throw a
TypeError (property access on `undefined`) instead of returning a
record. -/
theorem normalizeDiagram_throws_without_membership :
    normalizeDiagram (.obj [
      ("@context", .str (jstr "https://mermaid-ide.org/context/v1.jsonld")),
      ("@id", .str (jstr "urn:mermaid-ide:diagram:1")),
      ("@type", .str (jstr "bfo:BFO_0000031")),
      ("schema:name", .str (jstr "A")),
      ("schema:text", .str (jstr "graph TD;"))]) = .error .typeError := rfl

/-- C8: a response that is neither a success nor a 403/429 rate-limit
signal makes the adapter fail on the first attempt with the provider's
status code and message in the error: no sleep is performed and no
further scripted response is consumed, whatever the rest of the script
holds. -/
theorem non_ratelimit_fails_immediately (r : HttpResp) (rest : List HttpResp)
    (hok : respOk r.status = false) (h403 : r.status ≠ 403) (h429 : r.status ≠ 429) :
    githubFetchDefault (r :: rest) = (.failure (apiErrMsg r.status r.errMessage), []) := by
  rw [githubFetchDefault, githubFetch, githubFetchLoop]
  simp [hok, h403, h429]

/-- Witness for C8 at a concrete 500 response. -/
theorem non_ratelimit_fails_immediately_witness :
    respOk 500 = false ∧ 500 ≠ 403 ∧ 500 ≠ 429 ∧
    githubFetchDefault [⟨500, none, jstr "Internal Server Error", .null⟩] =
      (.failure (apiErrMsg 500 (jstr "Internal Server Error")), []) :=
  ⟨by decide, by decide, by decide,
    non_ratelimit_fails_immediately ⟨500, none, jstr "Internal Server Error", .null⟩ []
      (by decide) (by decide) (by decide)⟩

/-- C4 (counterexample): with the defaults (`retries = 3`,
`backoff = 1000`), three consecutive 429 responses exhaust the three
attempts of the loop — the trailing 200 is never requested and the call
rejects with the retries-exhausted error (after waits of 1000, 2000 and
4000 ms) instead of resolving successfully. -/
theorem three_429_then_200_rejects :
    githubFetchDefault [⟨429, none, jstr "rate limited", .null⟩,
      ⟨429, none, jstr "rate limited", .null⟩,
      ⟨429, none, jstr "rate limited", .null⟩,
      ⟨200, none, jstr "ok", .obj []⟩] =
    (.failure (retriesFailMsg 3 (some (apiErrMsg 429 (jstr "rate limited")))),
     [1000, 2000, 4000]) := by
  simp [githubFetchDefault, githubFetch, githubFetchLoop, respOk, fetchExhausted,
    containsSub, headMatch, retriesFailMsg, apiErrMsg, jstr, natToStr]

/-- The simple diagram record of C5: one read earlier from the store
(hence carrying a derived `_name_for_index` from that read), whose title
has since been renamed. -/
def staleIndexDiagram : JsObject :=
  [("id", .num 1), ("projectId", .num 2), ("title", .str (jstr "New")),
   ("content", .str (jstr "graph TD;")), ("_name_for_index", .str (jstr "Old"))]

/-- C5: `toDiagramLD` fails to recompute the derived indexing field when
the input already carries one: the `...rest` spread, placed after the
`_name_for_index: title` entry of the literal, overwrites the recomputed
value with the stale one, so the produced record indexes under "Old"
although its current title is "New". -/
theorem toDiagramLD_keeps_stale_index :
    getF staleIndexDiagram "title" = .str (jstr "New") ∧
    (match toDiagramLD staleIndexDiagram with
     | .ok ld => getF ld "_name_for_index"
     | .error _ => .undef) = .str (jstr "Old") := ⟨rfl, rfl⟩

/-- Round trip of one record: denormalize with `toDiagramLD`, then read
back with `normalizeDiagram`. -/
def roundTripDiagram (o : JsObject) : Except JsErr JsValue :=
  match toDiagramLD o with
  | .ok ld => normalizeDiagram (.obj ld)
  | .error e => .error e

def plainDiagram : JsObject :=
  [("id", .num 1), ("projectId", .num 2), ("title", .str (jstr "A")),
   ("content", .str (jstr "graph TD;"))]

/-- C2 (counterexample): denormalizing and re-normalizing a plain diagram
record is not the identity field-for-field: the round trip introduces
`_name_for_index` (set to the title) as a new defined field, because
`normalizeDiagram` passes the derived indexing field through into the
simple shape. -/
theorem roundtrip_adds_index_field :
    lookupF plainDiagram "_name_for_index" = none ∧
    (match roundTripDiagram plainDiagram with
     | .ok (.obj o) => lookupF o "_name_for_index"
     | _ => none) = some (.str (jstr "A")) := ⟨rfl, rfl⟩

/-- C10: with a null database handle, every store operation — the generic
get/put/delete/getAll helpers and the public actions built on them —
rejects with the database-not-initialized error and returns the state
unchanged, so no stored data is mutated.  For the add/update actions the
hypotheses state that the pure JSON-LD conversion step (which runs before
any store access) succeeds, as it does on every date-valid record. -/
theorem store_ops_reject_when_uninitialized (name : StoreName) (item : JsObject)
    (key pid : Int) (ldD ldD2 ldP ldP2 : JsObject)
    (hD : toDiagramLD (spreadInto (buildObj [("id", getF item "id")]) item) = .ok ldD)
    (hD2 : toDiagramLD item = .ok ldD2)
    (hP : toProjectLD (spreadInto (buildObj [("id", getF item "id")]) item) = .ok ldP)
    (hP2 : toProjectLD item = .ok ldP2) :
    _get none name key = (.error .dbNotInitialized, none) ∧
    _put none name item = (.error .dbNotInitialized, none) ∧
    _delete none name key = (.error .dbNotInitialized, none) ∧
    _getAll none name = (.error .dbNotInitialized, none) ∧
    getAllProjects none = (.error .dbNotInitialized, none) ∧
    getDiagram none key = (.error .dbNotInitialized, none) ∧
    getProject none key = (.error .dbNotInitialized, none) ∧
    deleteDiagram none key = (.error .dbNotInitialized, none) ∧
    deleteProject none key = (.error .dbNotInitialized, none) ∧
    deleteDiagramsByProjectId none pid = (.error .dbNotInitialized, none) ∧
    getDiagramsByProjectId none pid = (.error .dbNotInitialized, none) ∧
    getSyncQueueItems none = (.error .dbNotInitialized, none) ∧
    addSyncQueueItem none item = (.error .dbNotInitialized, none) ∧
    deleteSyncQueueItem none key = (.error .dbNotInitialized, none) ∧
    addDiagram none item = (.error .dbNotInitialized, none) ∧
    updateDiagram none item = (.error .dbNotInitialized, none) ∧
    addProject none item = (.error .dbNotInitialized, none) ∧
    updateProject none item = (.error .dbNotInitialized, none) := by
  refine ⟨rfl, rfl, rfl, rfl, rfl, rfl, rfl, rfl, rfl, rfl, rfl, rfl, rfl, rfl, ?_, ?_, ?_, ?_⟩
  · simp [addDiagram, hD, _put]
  · simp [updateDiagram, hD2, _put]
  · simp [addProject, hP, _put]
  · simp [updateProject, hP2, _put]

/-- Witness for C10 on the diagrams store with the empty record. -/
theorem store_ops_reject_when_uninitialized_witness :
    _get none .diagrams 1 = (.error .dbNotInitialized, none) ∧
    _put none .diagrams [] = (.error .dbNotInitialized, none) ∧
    _delete none .diagrams 1 = (.error .dbNotInitialized, none) ∧
    _getAll none .diagrams = (.error .dbNotInitialized, none) ∧
    getAllProjects none = (.error .dbNotInitialized, none) ∧
    getDiagram none 1 = (.error .dbNotInitialized, none) ∧
    getProject none 1 = (.error .dbNotInitialized, none) ∧
    deleteDiagram none 1 = (.error .dbNotInitialized, none) ∧
    deleteProject none 1 = (.error .dbNotInitialized, none) ∧
    deleteDiagramsByProjectId none 1 = (.error .dbNotInitialized, none) ∧
    getDiagramsByProjectId none 1 = (.error .dbNotInitialized, none) ∧
    getSyncQueueItems none = (.error .dbNotInitialized, none) ∧
    addSyncQueueItem none [] = (.error .dbNotInitialized, none) ∧
    deleteSyncQueueItem none 1 = (.error .dbNotInitialized, none) ∧
    addDiagram none [] = (.error .dbNotInitialized, none) ∧
    updateDiagram none [] = (.error .dbNotInitialized, none) ∧
    addProject none [] = (.error .dbNotInitialized, none) ∧
    updateProject none [] = (.error .dbNotInitialized, none) :=
  store_ops_reject_when_uninitialized .diagrams [] 1 1 _ _ _ _ rfl rfl rfl rfl

def demoProject : JsObject :=
  [("name", .str (jstr "Demo")), ("gitProvider", .str (jstr "local"))]

def demoDiagramA : JsObject :=
  [("projectId", .num 1), ("title", .str (jstr "A")),
   ("content", .str (jstr "graph TD;A-->B;"))]

/-- The store after creating project 1 ("Demo") with one diagram ("A"). -/
def demoState : StorageState :=
  (addDiagram (addProject (some freshDB) demoProject).2 demoDiagramA).2

/-- Number of records a successful read returns (0 on error). -/
def okLength (r : Except JsErr (List JsValue)) : Nat :=
  match r with
  | .ok l => l.length
  | .error _ => 0

/-- C3 (counterexample): after creating project 1 with one diagram,
`deleteProject` succeeds but the diagram survives — the indexed read for
project 1 still returns one diagram, because `deleteProject` is a plain
delete on the projects store and nothing invokes
`deleteDiagramsByProjectId`. -/
theorem deleteProject_leaves_diagrams :
    (addProject (some freshDB) demoProject).1 = .ok (.num 1) ∧
    (addDiagram (addProject (some freshDB) demoProject).2 demoDiagramA).1 = .ok (.num 1) ∧
    (deleteProject demoState 1).1 = .ok () ∧
    okLength (getDiagramsByProjectId (deleteProject demoState 1).2 1).1 = 1 :=
  ⟨rfl, rfl, rfl, rfl⟩

theorem filter_not_filter {α : Type} (l : List α) (p : α → Bool) :
    (l.filter (fun a => !p a)).filter p = [] := by
  induction l with
  | nil => rfl
  | cons h t ih =>
    cases hp : p h <;> simp [List.filter_cons, hp, ih]

theorem find_filter_none (l : List (IKey × JsObject)) (k : IKey) :
    (l.filter (fun p => !decide (p.1 = k))).find? (fun p => decide (p.1 = k)) = none := by
  rw [List.find?_eq_none]
  intro x hx
  have hmem := List.of_mem_filter hx
  simp at hmem ⊢
  exact hmem

/-- C3 (amended): `deleteDiagramsByProjectId` followed by `deleteProject`
does remove the project record together with every diagram of the
project: the indexed read then returns the empty collection and the
project reads back as `undefined`.  (The cascade is available but must be
invoked in addition to `deleteProject`.) -/
theorem cascade_then_delete_project (db : DB) (pid : Int) :
    (deleteDiagramsByProjectId (some db) pid).1 = .ok () ∧
    (deleteProject (deleteDiagramsByProjectId (some db) pid).2 pid).1 = .ok () ∧
    (getDiagramsByProjectId
      (deleteProject (deleteDiagramsByProjectId (some db) pid).2 pid).2 pid).1 = .ok [] ∧
    (getProject
      (deleteProject (deleteDiagramsByProjectId (some db) pid).2 pid).2 pid).1 = .ok .undef := by
  refine ⟨rfl, rfl, ?_, ?_⟩
  · simp only [deleteDiagramsByProjectId, deleteProject, _delete, DB.store, DB.setStore,
      getDiagramsByProjectId]
    rw [filter_not_filter]
    rfl
  · simp only [deleteDiagramsByProjectId, deleteProject, _delete, DB.store, DB.setStore,
      getProject, _get, osGet]
    rw [find_filter_none]
    rfl

theorem mem_replaceRec {l : List (IKey × JsObject)} {k : IKey} {v : JsObject}
    {x : IKey × JsObject} (hx : x ∈ replaceRec l k v) : x = (k, v) ∨ x ∈ l := by
  induction l with
  | nil =>
    rw [replaceRec] at hx
    exact .inl (List.mem_singleton.mp hx)
  | cons h tl ih =>
    obtain ⟨k', v'⟩ := h
    rw [replaceRec] at hx
    by_cases hk : k' = k
    · rw [if_pos hk] at hx
      rcases List.mem_cons.mp hx with h1 | h1
      · exact .inl h1
      · exact .inr (List.mem_cons_of_mem _ h1)
    · rw [if_neg hk] at hx
      rcases List.mem_cons.mp hx with h1 | h1
      · exact .inr (h1 ▸ List.mem_cons_self _ _)
      · rcases ih h1 with h2 | h2
        · exact .inl h2
        · exact .inr (List.mem_cons_of_mem _ h2)

theorem replaceRec_replaceRec (l : List (IKey × JsObject)) (k : IKey) (v w : JsObject) :
    replaceRec (replaceRec l k v) k w = replaceRec l k w := by
  induction l with
  | nil => simp [replaceRec]
  | cons h tl ih =>
    obtain ⟨k', v'⟩ := h
    rw [replaceRec]
    by_cases hk : k' = k
    · rw [if_pos hk, replaceRec, if_pos rfl, replaceRec, if_pos hk]
    · rw [if_neg hk, replaceRec, if_neg hk, ih, replaceRec, if_neg hk]

theorem find_replaceRec (l : List (IKey × JsObject)) (k : IKey) (v : JsObject) :
    (replaceRec l k v).find? (fun p => decide (p.1 = k)) = some (k, v) := by
  induction l with
  | nil => simp [replaceRec, List.find?]
  | cons h tl ih =>
    obtain ⟨k', v'⟩ := h
    rw [replaceRec]
    by_cases hk : k' = k
    · rw [if_pos hk]
      simp [List.find?]
    · rw [if_neg hk]
      rw [List.find?_cons]
      have hd : decide ((k', v').1 = k) = false := by simp [hk]
      rw [hd]
      exact ih

theorem intToStr_no_colon (i : Int) : 58 ∉ intToStr i := by
  rw [intToStr]
  split
  · intro hm
    rcases List.mem_cons.mp hm with h | h
    · simp at h
    · have := natToStr_all_digit i.natAbs 58 h
      omega
  · intro hm
    have := natToStr_all_digit i.natAbs 58 hm
    omega

theorem diagram_urn_parse (i : Int) :
    parseIntJs (jsPop (splitCode 58 (jstr "urn:mermaid-ide:diagram:" ++ intToStr i))) =
      some i := by
  have hform : jstr "urn:mermaid-ide:diagram:" ++ intToStr i =
      jstr "urn:mermaid-ide:diagram" ++ 58 :: intToStr i := by
    have : jstr "urn:mermaid-ide:diagram:" = jstr "urn:mermaid-ide:diagram" ++ [58] := rfl
    rw [this, List.append_assoc]
    rfl
  rw [hform, jsPop_split_urn 58 _ _ (intToStr_no_colon i), parseIntJs_intToStr]

theorem project_urn_parse (i : Int) :
    parseIntJs (jsPop (splitCode 58 (jstr "urn:mermaid-ide:project:" ++ intToStr i))) =
      some i := by
  have hform : jstr "urn:mermaid-ide:project:" ++ intToStr i =
      jstr "urn:mermaid-ide:project" ++ 58 :: intToStr i := by
    have : jstr "urn:mermaid-ide:project:" = jstr "urn:mermaid-ide:project" ++ [58] := rfl
    rw [this, List.append_assoc]
    rfl
  rw [hform, jsPop_split_urn 58 _ _ (intToStr_no_colon i), parseIntJs_intToStr]

/-- A fresh diagram record as the UI submits it to `addDiagram`. -/
def newDiagram (p : Int) (t c : JsStr) : JsObject :=
  [("projectId", .num p), ("title", .str t), ("content", .str c)]

/-- The JSON-LD form `toDiagramLD` produces for a fresh simple diagram
record that carries no id yet (the URN renders `undefined`). -/
def ldNewDiagram (p : Int) (t c : JsStr) : JsObject :=
  [("@context", .str (jstr "https://mermaid-ide.org/context/v1.jsonld")),
   ("@id", .str (jstr "urn:mermaid-ide:diagram:undefined")),
   ("@type", .str (jstr "bfo:BFO_0000031")),
   ("schema:name", .str t),
   ("schema:text", .str c),
   ("bfo:BFO_0000129", .obj [("@id", .str (jstr "urn:mermaid-ide:project:" ++ intToStr p))]),
   ("schema:dateCreated", .undef),
   ("schema:dateModified", .undef),
   ("lastModifiedRemoteSha", .undef),
   ("_name_for_index", .str t),
   ("projectId", .num p)]

/-- The record `addDiagram` finally persists: the generated id reflected
into `id` and into the `@id` URN. -/
def storedDiagram (n p : Int) (t c : JsStr) : JsObject :=
  [("@context", .str (jstr "https://mermaid-ide.org/context/v1.jsonld")),
   ("@id", .str (jstr "urn:mermaid-ide:diagram:" ++ intToStr n)),
   ("@type", .str (jstr "bfo:BFO_0000031")),
   ("schema:name", .str t),
   ("schema:text", .str c),
   ("bfo:BFO_0000129", .obj [("@id", .str (jstr "urn:mermaid-ide:project:" ++ intToStr p))]),
   ("schema:dateCreated", .undef),
   ("schema:dateModified", .undef),
   ("lastModifiedRemoteSha", .undef),
   ("_name_for_index", .str t),
   ("projectId", .num p),
   ("id", .num n)]

/-- The simple record `normalizeDiagram` recovers from a stored one. -/
def normalizedStored (n p : Int) (t c : JsStr) : JsObject :=
  [("id", .num n), ("projectId", .num p), ("title", .str t), ("content", .str c),
   ("createdAt", .undef), ("updatedAt", .undef),
   ("lastModifiedRemoteSha", .undef), ("_name_for_index", .str t)]

/-- Effect of `addDiagram` on a fresh simple record when no other record
occupies the `['projectId', '_name_for_index']` slot: the generator's key
is assigned, returned, and the final record is persisted under it. -/
theorem addDiagram_fresh_ok (db : DB) (p : Int) (t c : JsStr)
    (hfree : ∀ r ∈ db.diagrams.records,
      uniqueKeyOf .diagrams r.2 ≠ some (.pair (.num p) (.str t))) :
    addDiagram (some db) (newDiagram p t c) =
      (.ok (.num db.diagrams.nextId),
       some (db.setStore .diagrams
         ⟨replaceRec db.diagrams.records (.num db.diagrams.nextId)
            (storedDiagram db.diagrams.nextId p t c),
          db.diagrams.nextId + 1⟩)) := by
  have hkeyItem : ∀ n : Int, uniqueKeyOf .diagrams
      (setF (ldNewDiagram p t c) "id" (.num n)) =
      some (.pair (.num p) (.str t)) := fun _ => rfl
  have hkeyStored : ∀ n : Int, uniqueKeyOf .diagrams (storedDiagram n p t c) =
      some (.pair (.num p) (.str t)) := fun _ => rfl
  have hcon1 : uniqueConflict .diagrams db.diagrams (.num db.diagrams.nextId)
      (setF (ldNewDiagram p t c) "id" (.num db.diagrams.nextId)) = false := by
    rw [uniqueConflict, List.any_eq_false]
    intro r hr
    cases hk : uniqueKeyOf .diagrams r.2 with
    | none => simp [hkeyItem, hk]
    | some b =>
      have hb : (IKey.pair (.num p) (.str t)) ≠ b := by
        intro he
        exact hfree r hr (by rw [hk, ← he])
      simp [hkeyItem, hk, hb]
  have hld : toDiagramLD (spreadInto (buildObj [("id", getF (newDiagram p t c) "id")])
      (newDiagram p t c)) = .ok (ldNewDiagram p t c) := rfl
  have hgid : getF (ldNewDiagram p t c) "id" = JsValue.undef := rfl
  have hfix : ∀ n : Int,
      setF (setF (ldNewDiagram p t c) "id" (JsValue.num n)) "@id"
        (JsValue.str (jstr "urn:mermaid-ide:diagram:" ++ intToStr n)) =
      storedDiagram n p t c := fun _ => rfl
  have hgid2 : ∀ n : Int, getF (storedDiagram n p t c) "id" = .num n := fun _ => rfl
  have hcon2 : uniqueConflict .diagrams
      ⟨replaceRec db.diagrams.records (.num db.diagrams.nextId)
        (setF (ldNewDiagram p t c) "id" (.num db.diagrams.nextId)),
       db.diagrams.nextId + 1⟩
      (.num db.diagrams.nextId) (storedDiagram db.diagrams.nextId p t c) = false := by
    rw [uniqueConflict, List.any_eq_false]
    intro r hr
    by_cases hrk : r.1 = .num db.diagrams.nextId
    · simp [hrk]
    · rcases mem_replaceRec hr with h1 | h1
      · exact absurd (by rw [h1]) hrk
      · cases hk : uniqueKeyOf .diagrams r.2 with
        | none => simp [hkeyStored, hk]
        | some b =>
          have hb : (IKey.pair (.num p) (.str t)) ≠ b := by
            intro he
            exact hfree r h1 (by rw [hk, ← he])
          simp [hkeyStored, hk, hb]
  simp only [addDiagram, hld, _put, DB.store, osPut, hgid, hcon1, Bool.false_eq_true,
    if_false, DB.setStore, keyToJs, templateVal]
  simp only [hfix]
  simp only [hgid2, jsToKey]
  rw [if_neg (by omega : ¬ db.diagrams.nextId + 1 ≤ db.diagrams.nextId)]
  simp only [hcon2, Bool.false_eq_true, if_false, replaceRec_replaceRec]

/-- Effect of `addDiagram` when another record already occupies the
record's `['projectId', '_name_for_index']` slot: the first `_put` aborts
with the ConstraintError of the unique index and the store is
unchanged. -/
theorem addDiagram_dup_fails (db : DB) (p : Int) (t c : JsStr)
    (hdup : ∃ r ∈ db.diagrams.records, r.1 ≠ .num db.diagrams.nextId ∧
      uniqueKeyOf .diagrams r.2 = some (.pair (.num p) (.str t))) :
    addDiagram (some db) (newDiagram p t c) = (.error .constraintError, some db) := by
  have hkeyItem : ∀ n : Int, uniqueKeyOf .diagrams
      (setF (ldNewDiagram p t c) "id" (.num n)) =
      some (.pair (.num p) (.str t)) := fun _ => rfl
  have hld : toDiagramLD (spreadInto (buildObj [("id", getF (newDiagram p t c) "id")])
      (newDiagram p t c)) = .ok (ldNewDiagram p t c) := rfl
  have hgid : getF (ldNewDiagram p t c) "id" = JsValue.undef := rfl
  have hcon : uniqueConflict .diagrams db.diagrams (.num db.diagrams.nextId)
      (setF (ldNewDiagram p t c) "id" (.num db.diagrams.nextId)) = true := by
    rw [uniqueConflict, List.any_eq_true]
    obtain ⟨r, hr, hrk, hkey⟩ := hdup
    refine ⟨r, hr, ?_⟩
    simp [hkeyItem, hkey, hrk]
  simp only [addDiagram, hld, _put, DB.store, osPut, hgid, hcon, if_true]

theorem normalizeDiagram_storedDiagram (n p : Int) (t c : JsStr) :
    normalizeDiagram (.obj (storedDiagram n p t c)) =
      .ok (.obj (normalizedStored n p t c)) := by
  have hmain : normalizeDiagram (.obj (storedDiagram n p t c)) =
      .ok (.obj (spreadInto (buildObj [
        ("id", numOfParse (parseIntJs (jsPop (splitCode 58
          (jstr "urn:mermaid-ide:diagram:" ++ intToStr n))))),
        ("projectId", numOfParse (parseIntJs (jsPop (splitCode 58
          (jstr "urn:mermaid-ide:project:" ++ intToStr p))))),
        ("title", .str t), ("content", .str c),
        ("createdAt", .undef), ("updatedAt", .undef)])
        (removeKeys (storedDiagram n p t c) ["@context", "@id", "@type", "schema:name",
          "schema:text", "bfo:BFO_0000129", "schema:dateCreated",
          "schema:dateModified"]))) := rfl
  rw [hmain, diagram_urn_parse, project_urn_parse]
  rfl

/-- The store after adding one fresh diagram (project `p`, title `t`,
text `c`) to an empty database. -/
def dbAfterFirst (p : Int) (t c : JsStr) : DB :=
  ⟨freshStore, ⟨[(.num 1, storedDiagram 1 p t c)], 2⟩, freshStore⟩

/-- C6: in a fresh store, adding a diagram titled `t` under project `p`
succeeds; a second diagram with the same title under the same project is
rejected with the ConstraintError of the unique
`['projectId', '_name_for_index']` index — an error value distinct from
every other failure of the store — leaving the store unchanged; the same
title under a different project `q` succeeds. -/
theorem duplicate_title_unique_per_project (p q : Int) (t c1 c2 c3 : JsStr)
    (hpq : p ≠ q) :
    addDiagram (some freshDB) (newDiagram p t c1) =
      (.ok (.num 1), some (dbAfterFirst p t c1)) ∧
    addDiagram (some (dbAfterFirst p t c1)) (newDiagram p t c2) =
      (.error .constraintError, some (dbAfterFirst p t c1)) ∧
    (addDiagram (some (dbAfterFirst p t c1)) (newDiagram q t c3)).1 = .ok (.num 2) := by
  refine ⟨?_, ?_, ?_⟩
  · exact addDiagram_fresh_ok freshDB p t c1
      (by intro r hr; exact absurd hr (List.not_mem_nil r))
  · apply addDiagram_dup_fails
    refine ⟨(.num 1, storedDiagram 1 p t c1), List.mem_singleton.mpr rfl, ?_, rfl⟩
    simp [dbAfterFirst]
  · have h := addDiagram_fresh_ok (dbAfterFirst p t c1) q t c3 ?_
    · rw [h]
      rfl
    · intro r hr
      have hre : r = (.num 1, storedDiagram 1 p t c1) := List.mem_singleton.mp hr
      subst hre
      have hk : uniqueKeyOf .diagrams (storedDiagram 1 p t c1) =
          some (.pair (.num p) (.str t)) := rfl
      rw [hk]
      intro he
      simp at he
      exact hpq he

/-- Witness for C6 at concrete projects 1 and 2 and title "A". -/
theorem duplicate_title_unique_per_project_witness :
    addDiagram (some freshDB) (newDiagram 1 (jstr "A") (jstr "x")) =
      (.ok (.num 1), some (dbAfterFirst 1 (jstr "A") (jstr "x"))) ∧
    addDiagram (some (dbAfterFirst 1 (jstr "A") (jstr "x")))
        (newDiagram 1 (jstr "A") (jstr "y")) =
      (.error .constraintError, some (dbAfterFirst 1 (jstr "A") (jstr "x"))) ∧
    (addDiagram (some (dbAfterFirst 1 (jstr "A") (jstr "x")))
        (newDiagram 2 (jstr "A") (jstr "z"))).1 = .ok (.num 2) :=
  duplicate_title_unique_per_project 1 2 (jstr "A") (jstr "x") (jstr "y") (jstr "z")
    (by decide)

/-- `addDiagram` on a record without an id assigns the generator's
next key, returns it to the caller, persists the record with that same
numeric id rendered inside the `@id` URN, and a subsequent read of the
record parses the same integer back out of the URN. -/
theorem addDiagram_assigns_and_encodes_id (db : DB) (p : Int) (t c : JsStr)
    (hfree : ∀ r ∈ db.diagrams.records,
      uniqueKeyOf .diagrams r.2 ≠ some (.pair (.num p) (.str t))) :
    (addDiagram (some db) (newDiagram p t c)).1 = .ok (.num db.diagrams.nextId) ∧
    (∃ db2, (addDiagram (some db) (newDiagram p t c)).2 = some db2 ∧
      osGet db2.diagrams (.num db.diagrams.nextId) =
        .obj (storedDiagram db.diagrams.nextId p t c)) ∧
    getF (storedDiagram db.diagrams.nextId p t c) "@id" =
      .str (jstr "urn:mermaid-ide:diagram:" ++ intToStr db.diagrams.nextId) ∧
    parseIntJs (jsPop (splitCode 58
      (jstr "urn:mermaid-ide:diagram:" ++ intToStr db.diagrams.nextId))) =
      some db.diagrams.nextId ∧
    (getDiagram (addDiagram (some db) (newDiagram p t c)).2 db.diagrams.nextId).1 =
      .ok (.obj (normalizedStored db.diagrams.nextId p t c)) ∧
    getF (normalizedStored db.diagrams.nextId p t c) "id" = .num db.diagrams.nextId := by
  have h := addDiagram_fresh_ok db p t c hfree
  refine ⟨by rw [h], ⟨_, by rw [h], ?_⟩, rfl, diagram_urn_parse _, ?_, rfl⟩
  · simp only [DB.setStore, DB.store]
    rw [osGet, find_replaceRec]
  · rw [h]
    simp only [getDiagram, _get, DB.setStore, DB.store]
    rw [osGet, find_replaceRec]
    exact normalizeDiagram_storedDiagram db.diagrams.nextId p t c

/-- The diagram lemma instantiated on a fresh store. -/
theorem addDiagram_assigns_and_encodes_id_witness :
    (addDiagram (some freshDB) (newDiagram 1 (jstr "A") (jstr "x"))).1 = .ok (.num 1) ∧
    (∃ db2, (addDiagram (some freshDB) (newDiagram 1 (jstr "A") (jstr "x"))).2 = some db2 ∧
      osGet db2.diagrams (.num 1) = .obj (storedDiagram 1 1 (jstr "A") (jstr "x"))) ∧
    getF (storedDiagram 1 1 (jstr "A") (jstr "x")) "@id" =
      .str (jstr "urn:mermaid-ide:diagram:" ++ intToStr 1) ∧
    parseIntJs (jsPop (splitCode 58 (jstr "urn:mermaid-ide:diagram:" ++ intToStr 1))) =
      some 1 ∧
    (getDiagram (addDiagram (some freshDB) (newDiagram 1 (jstr "A") (jstr "x"))).2 1).1 =
      .ok (.obj (normalizedStored 1 1 (jstr "A") (jstr "x"))) ∧
    getF (normalizedStored 1 1 (jstr "A") (jstr "x")) "id" = .num 1 :=
  addDiagram_assigns_and_encodes_id freshDB 1 (jstr "A") (jstr "x")
    (by intro r hr; exact absurd hr (List.not_mem_nil r))

/-- A fresh project record as the UI submits it to `addProject`. -/
def newProject (nm : JsStr) : JsObject := [("name", .str nm)]

/-- The JSON-LD form `toProjectLD` produces for a fresh simple project
record that carries no id yet (the URN renders `undefined`). -/
def ldNewProject (nm : JsStr) : JsObject :=
  [("@context", .str (jstr "https://mermaid-ide.org/context/v1.jsonld")),
   ("@id", .str (jstr "urn:mermaid-ide:project:undefined")),
   ("@type", .str (jstr "bfo:BFO_0000027")),
   ("schema:name", .str nm),
   ("schema:dateCreated", .undef),
   ("schema:dateModified", .undef),
   ("_name_for_index", .str nm)]

/-- The record `addProject` finally persists: the generated id reflected
into `id` and into the `@id` URN. -/
def storedProject (n : Int) (nm : JsStr) : JsObject :=
  [("@context", .str (jstr "https://mermaid-ide.org/context/v1.jsonld")),
   ("@id", .str (jstr "urn:mermaid-ide:project:" ++ intToStr n)),
   ("@type", .str (jstr "bfo:BFO_0000027")),
   ("schema:name", .str nm),
   ("schema:dateCreated", .undef),
   ("schema:dateModified", .undef),
   ("_name_for_index", .str nm),
   ("id", .num n)]

/-- The simple record `normalizeProject` recovers from a stored one. -/
def normalizedStoredProject (n : Int) (nm : JsStr) : JsObject :=
  [("id", .num n), ("name", .str nm), ("createdAt", .undef),
   ("updatedAt", .undef), ("_name_for_index", .str nm)]

/-- Effect of `addProject` on a fresh simple record when no other record
occupies the `_name_for_index` slot: the generator's key is assigned,
returned, and the final record is persisted under it. -/
theorem addProject_fresh_ok (db : DB) (nm : JsStr)
    (hfree : ∀ r ∈ db.projects.records,
      uniqueKeyOf .projects r.2 ≠ some (.str nm)) :
    addProject (some db) (newProject nm) =
      (.ok (.num db.projects.nextId),
       some (db.setStore .projects
         ⟨replaceRec db.projects.records (.num db.projects.nextId)
            (storedProject db.projects.nextId nm),
          db.projects.nextId + 1⟩)) := by
  have hkeyItem : ∀ n : Int, uniqueKeyOf .projects
      (setF (ldNewProject nm) "id" (.num n)) = some (.str nm) := fun _ => rfl
  have hkeyStored : ∀ n : Int, uniqueKeyOf .projects (storedProject n nm) =
      some (.str nm) := fun _ => rfl
  have hcon1 : uniqueConflict .projects db.projects (.num db.projects.nextId)
      (setF (ldNewProject nm) "id" (.num db.projects.nextId)) = false := by
    rw [uniqueConflict, List.any_eq_false]
    intro r hr
    cases hk : uniqueKeyOf .projects r.2 with
    | none => simp [hkeyItem, hk]
    | some b =>
      have hb : (IKey.str nm) ≠ b := by
        intro he
        exact hfree r hr (by rw [hk, ← he])
      simp [hkeyItem, hk, hb]
  have hld : toProjectLD (spreadInto (buildObj [("id", getF (newProject nm) "id")])
      (newProject nm)) = .ok (ldNewProject nm) := rfl
  have hgid : getF (ldNewProject nm) "id" = JsValue.undef := rfl
  have hfix : ∀ n : Int,
      setF (setF (ldNewProject nm) "id" (JsValue.num n)) "@id"
        (JsValue.str (jstr "urn:mermaid-ide:project:" ++ intToStr n)) =
      storedProject n nm := fun _ => rfl
  have hgid2 : ∀ n : Int, getF (storedProject n nm) "id" = .num n := fun _ => rfl
  have hcon2 : uniqueConflict .projects
      ⟨replaceRec db.projects.records (.num db.projects.nextId)
        (setF (ldNewProject nm) "id" (.num db.projects.nextId)),
       db.projects.nextId + 1⟩
      (.num db.projects.nextId) (storedProject db.projects.nextId nm) = false := by
    rw [uniqueConflict, List.any_eq_false]
    intro r hr
    by_cases hrk : r.1 = .num db.projects.nextId
    · simp [hrk]
    · rcases mem_replaceRec hr with h1 | h1
      · exact absurd (by rw [h1]) hrk
      · cases hk : uniqueKeyOf .projects r.2 with
        | none => simp [hkeyStored, hk]
        | some b =>
          have hb : (IKey.str nm) ≠ b := by
            intro he
            exact hfree r h1 (by rw [hk, ← he])
          simp [hkeyStored, hk, hb]
  simp only [addProject, hld, _put, DB.store, osPut, hgid, hcon1, Bool.false_eq_true,
    if_false, DB.setStore, keyToJs, templateVal]
  simp only [hfix]
  simp only [hgid2, jsToKey]
  rw [if_neg (by omega : ¬ db.projects.nextId + 1 ≤ db.projects.nextId)]
  simp only [hcon2, Bool.false_eq_true, if_false, replaceRec_replaceRec]

theorem normalizeProject_storedProject (n : Int) (nm : JsStr) :
    normalizeProject (.obj (storedProject n nm)) =
      .ok (.obj (normalizedStoredProject n nm)) := by
  have hmain : normalizeProject (.obj (storedProject n nm)) =
      .ok (.obj (spreadInto (buildObj [
        ("id", numOfParse (parseIntJs (jsPop (splitCode 58
          (jstr "urn:mermaid-ide:project:" ++ intToStr n))))),
        ("name", .str nm),
        ("createdAt", .undef), ("updatedAt", .undef)])
        (removeKeys (storedProject n nm) ["@context", "@id", "@type", "schema:name",
          "schema:dateCreated", "schema:dateModified"]))) := rfl
  rw [hmain, project_urn_parse]
  rfl

/-- C7: `addDiagram` and `addProject` on records without an id each
assign the generator's next key, return it to the caller, persist the
record with that same numeric id rendered inside the `@id` URN, and a
subsequent read of the record parses the same integer back out of the
URN.  The hypotheses say the unique-index slots of the two new records
are free, as they are in any store that does not already hold them. -/
theorem add_assigns_and_encodes_id (db : DB) (p : Int) (t c nm : JsStr)
    (hfreeD : ∀ r ∈ db.diagrams.records,
      uniqueKeyOf .diagrams r.2 ≠ some (.pair (.num p) (.str t)))
    (hfreeP : ∀ r ∈ db.projects.records,
      uniqueKeyOf .projects r.2 ≠ some (.str nm)) :
    ((addDiagram (some db) (newDiagram p t c)).1 = .ok (.num db.diagrams.nextId) ∧
     (∃ db2, (addDiagram (some db) (newDiagram p t c)).2 = some db2 ∧
       osGet db2.diagrams (.num db.diagrams.nextId) =
         .obj (storedDiagram db.diagrams.nextId p t c)) ∧
     getF (storedDiagram db.diagrams.nextId p t c) "@id" =
       .str (jstr "urn:mermaid-ide:diagram:" ++ intToStr db.diagrams.nextId) ∧
     parseIntJs (jsPop (splitCode 58
       (jstr "urn:mermaid-ide:diagram:" ++ intToStr db.diagrams.nextId))) =
       some db.diagrams.nextId ∧
     (getDiagram (addDiagram (some db) (newDiagram p t c)).2 db.diagrams.nextId).1 =
       .ok (.obj (normalizedStored db.diagrams.nextId p t c)) ∧
     getF (normalizedStored db.diagrams.nextId p t c) "id" = .num db.diagrams.nextId) ∧
    ((addProject (some db) (newProject nm)).1 = .ok (.num db.projects.nextId) ∧
     (∃ db2, (addProject (some db) (newProject nm)).2 = some db2 ∧
       osGet db2.projects (.num db.projects.nextId) =
         .obj (storedProject db.projects.nextId nm)) ∧
     getF (storedProject db.projects.nextId nm) "@id" =
       .str (jstr "urn:mermaid-ide:project:" ++ intToStr db.projects.nextId) ∧
     parseIntJs (jsPop (splitCode 58
       (jstr "urn:mermaid-ide:project:" ++ intToStr db.projects.nextId))) =
       some db.projects.nextId ∧
     (getProject (addProject (some db) (newProject nm)).2 db.projects.nextId).1 =
       .ok (.obj (normalizedStoredProject db.projects.nextId nm)) ∧
     getF (normalizedStoredProject db.projects.nextId nm) "id" =
       .num db.projects.nextId) := by
  constructor
  · exact addDiagram_assigns_and_encodes_id db p t c hfreeD
  · have h := addProject_fresh_ok db nm hfreeP
    refine ⟨by rw [h], ⟨_, by rw [h], ?_⟩, rfl, project_urn_parse _, ?_, rfl⟩
    · simp only [DB.setStore, DB.store]
      rw [osGet, find_replaceRec]
    · rw [h]
      simp only [getProject, _get, DB.setStore, DB.store]
      rw [osGet, find_replaceRec]
      exact normalizeProject_storedProject db.projects.nextId nm

/-- Witness for C7 on a fresh store: diagram (project 1, title "A") and
project (name "P"). -/
theorem add_assigns_and_encodes_id_witness :
    ((addDiagram (some freshDB) (newDiagram 1 (jstr "A") (jstr "x"))).1 =
       .ok (.num 1) ∧
     (∃ db2, (addDiagram (some freshDB) (newDiagram 1 (jstr "A") (jstr "x"))).2 =
         some db2 ∧
       osGet db2.diagrams (.num 1) = .obj (storedDiagram 1 1 (jstr "A") (jstr "x"))) ∧
     getF (storedDiagram 1 1 (jstr "A") (jstr "x")) "@id" =
       .str (jstr "urn:mermaid-ide:diagram:" ++ intToStr 1) ∧
     parseIntJs (jsPop (splitCode 58
       (jstr "urn:mermaid-ide:diagram:" ++ intToStr 1))) = some 1 ∧
     (getDiagram (addDiagram (some freshDB)
         (newDiagram 1 (jstr "A") (jstr "x"))).2 1).1 =
       .ok (.obj (normalizedStored 1 1 (jstr "A") (jstr "x"))) ∧
     getF (normalizedStored 1 1 (jstr "A") (jstr "x")) "id" = .num 1) ∧
    ((addProject (some freshDB) (newProject (jstr "P"))).1 = .ok (.num 1) ∧
     (∃ db2, (addProject (some freshDB) (newProject (jstr "P"))).2 = some db2 ∧
       osGet db2.projects (.num 1) = .obj (storedProject 1 (jstr "P"))) ∧
     getF (storedProject 1 (jstr "P")) "@id" =
       .str (jstr "urn:mermaid-ide:project:" ++ intToStr 1) ∧
     parseIntJs (jsPop (splitCode 58
       (jstr "urn:mermaid-ide:project:" ++ intToStr 1))) = some 1 ∧
     (getProject (addProject (some freshDB) (newProject (jstr "P"))).2 1).1 =
       .ok (.obj (normalizedStoredProject 1 (jstr "P"))) ∧
     getF (normalizedStoredProject 1 (jstr "P")) "id" = .num 1) :=
  add_assigns_and_encodes_id freshDB 1 (jstr "A") (jstr "x") (jstr "P")
    (by intro r hr; exact absurd hr (List.not_mem_nil r))
    (by intro r hr; exact absurd hr (List.not_mem_nil r))

theorem lookupF_some_imp_mem {o : JsObject} {k : String} {v : JsValue}
    (h : lookupF o k = some v) : (k, v) ∈ o := by
  induction o with
  | nil => simp [lookupF] at h
  | cons p rest ih =>
    rw [lookupF] at h
    by_cases hp : p.1 = k
    · rw [if_pos hp] at h
      have hv : p.2 = v := Option.some.inj h
      have hkv : (k, v) = p := by
        obtain ⟨a, b⟩ := p
        simp only at hp hv
        rw [hp, hv]
      exact List.mem_cons.mpr (Or.inl hkv)
    · rw [if_neg hp] at h
      exact List.mem_cons_of_mem _ (ih h)

theorem lookupF_none_of_avoid {o : JsObject} {ks : List String} {k : String}
    (h : ∀ p ∈ o, p.1 ∉ ks) (hk : k ∈ ks) : lookupF o k = none := by
  cases hv : lookupF o k with
  | none => rfl
  | some v =>
    have := h (k, v) (lookupF_some_imp_mem hv)
    exact absurd hk this

theorem removeKeys_of_avoid {o : JsObject} {ks : List String}
    (h : ∀ p ∈ o, p.1 ∉ ks) : removeKeys o ks = o := by
  rw [removeKeys, List.filter_eq_self]
  intro p hp
  simp [h p hp]

/-- Keys of an object, in order. -/
def objKeys (o : JsObject) : List String := o.map Prod.fst

theorem lookupF_eq_none_iff (o : JsObject) (k : String) :
    lookupF o k = none ↔ k ∉ objKeys o := by
  induction o with
  | nil => simp [lookupF, objKeys]
  | cons p rest ih =>
    rw [lookupF, objKeys, List.map_cons]
    by_cases hp : p.1 = k
    · rw [if_pos hp]
      simp [hp]
    · rw [if_neg hp]
      rw [objKeys] at ih
      simp [ih, Ne.symm hp]

theorem lookupF_reverse_of_nodup {o : JsObject} (h : (objKeys o).Nodup) (k : String) :
    lookupF o.reverse k = lookupF o k := by
  induction o with
  | nil => rfl
  | cons p rest ih =>
    rw [objKeys, List.map_cons, List.nodup_cons] at h
    rw [List.reverse_cons, lookupF_append]
    have ihr : lookupF rest.reverse k = lookupF rest k := ih h.2
    rw [ihr]
    have hone : lookupF [p] k = if p.1 = k then some p.2 else none := by
      rw [lookupF]
      by_cases hp : p.1 = k
      · rw [if_pos hp, if_pos hp]
      · rw [if_neg hp, if_neg hp, lookupF]
    by_cases hp : p.1 = k
    · have hnone : lookupF rest k = none := by
        rw [lookupF_eq_none_iff, ← hp]
        exact h.1
      rw [hnone]
      show lookupF [p] k = lookupF (p :: rest) k
      rw [hone, if_pos hp, lookupF, if_pos hp]
    · cases hr : lookupF rest k with
      | some v =>
        simp only [hr]
        show some v = lookupF (p :: rest) k
        rw [lookupF, if_neg hp, hr]
      | none =>
        simp only [hr]
        show lookupF [p] k = lookupF (p :: rest) k
        rw [hone, if_neg hp, lookupF, if_neg hp, hr]

theorem lastBinding_of_nodup {o : JsObject} (h : (objKeys o).Nodup) (k : String) :
    lastBinding o k = lookupF o k := by
  rw [lastBinding, lookupF_reverse_of_nodup h]

theorem lookupF_spreadInto_nodup (o : JsObject) {l : JsObject}
    (hl : (objKeys l).Nodup) (k : String) :
    lookupF (spreadInto o l) k =
      match lookupF l k with
      | some v => some v
      | none => lookupF o k := by
  rw [lookupF_spreadInto, lastBinding_of_nodup hl]

theorem objKeys_cons (p : String × JsValue) (rest : JsObject) :
    objKeys (p :: rest) = p.1 :: objKeys rest := rfl

theorem objKeys_setF (o : JsObject) (k : String) (v : JsValue) :
    objKeys (setF o k v) =
      if k ∈ objKeys o then objKeys o else objKeys o ++ [k] := by
  induction o with
  | nil => simp [setF, objKeys]
  | cons p rest ih =>
    rw [setF]
    by_cases hp : p.1 = k
    · rw [if_pos hp]
      simp only [objKeys_cons]
      have hmem : k ∈ p.1 :: objKeys rest := by
        rw [hp]
        exact List.mem_cons_self _ _
      rw [if_pos hmem]
    · rw [if_neg hp]
      simp only [objKeys_cons, ih]
      by_cases hk : k ∈ objKeys rest
      · rw [if_pos hk, if_pos (List.mem_cons_of_mem _ hk)]
      · rw [if_neg hk,
          if_neg (by simp [Ne.symm hp, hk] : k ∉ p.1 :: objKeys rest)]
        simp

theorem nodup_keys_setF {o : JsObject} (h : (objKeys o).Nodup) (k : String) (v : JsValue) :
    (objKeys (setF o k v)).Nodup := by
  rw [objKeys_setF]
  by_cases hk : k ∈ objKeys o
  · rw [if_pos hk]
    exact h
  · rw [if_neg hk]
    simp [List.nodup_append, h, hk]

theorem nodup_keys_spreadInto {o : JsObject} (l : JsObject) (h : (objKeys o).Nodup) :
    (objKeys (spreadInto o l)).Nodup := by
  induction l generalizing o with
  | nil => exact h
  | cons p rest ih =>
    rw [spreadInto, List.foldl_cons]
    exact ih (nodup_keys_setF h p.1 p.2)

theorem nodup_keys_removeKeys {o : JsObject} (ks : List String)
    (h : (objKeys o).Nodup) : (objKeys (removeKeys o ks)).Nodup := by
  have hsub : List.Sublist (removeKeys o ks) o := List.filter_sublist o
  exact h.sublist (hsub.map Prod.fst)

/-- Keys with a meaning in the diagram schema (semantic keys, simple
keys, the derived index field): an extra app-specific field of a simple
record uses none of these. -/
def reservedDiagramKeys : List String :=
  ["@context", "@id", "@type", "schema:name", "schema:text", "bfo:BFO_0000129",
   "schema:dateCreated", "schema:dateModified",
   "id", "projectId", "title", "content", "createdAt", "updatedAt",
   "lastModifiedRemoteSha", "_name_for_index"]

/-- A simple-shape diagram record: the defined fields of the data model,
optional ones possibly absent, plus arbitrary extra fields. -/
structure SimpleDiagram where
  id : Int
  projectId : Int
  title : JsStr
  content : JsStr
  createdAt : Option Int
  updatedAt : Option Int
  sha : Option JsStr
  extra : JsObject

/-- An optional field of a record: present exactly when a value is. -/
def optionalF (k : String) (v : Option JsValue) : JsObject :=
  match v with
  | some x => [(k, x)]
  | none => []

/-- The JS object a simple diagram record denotes. -/
def SimpleDiagram.toObj (d : SimpleDiagram) : JsObject :=
  [("id", .num d.id), ("projectId", .num d.projectId),
   ("title", .str d.title), ("content", .str d.content)]
  ++ optionalF "createdAt" (d.createdAt.map JsValue.date)
  ++ optionalF "updatedAt" (d.updatedAt.map JsValue.date)
  ++ optionalF "lastModifiedRemoteSha" (d.sha.map JsValue.str)
  ++ d.extra

/-- Well-formedness of a simple diagram record: a nonzero id (the store
assigns ids from 1), extra fields off the reserved keys with defined
values and distinct keys, and date-valid timestamps (their canonical ISO
rendering parses back to the same millisecond value). -/
def SimpleDiagram.wf (d : SimpleDiagram) : Prop :=
  d.id ≠ 0 ∧
  (∀ q ∈ d.extra, q.1 ∉ reservedDiagramKeys ∧ q.2 ≠ JsValue.undef) ∧
  (objKeys d.extra).Nodup ∧
  (∀ ts ∈ d.createdAt, isoParse (isoOfMs ts) = some ts) ∧
  (∀ ts ∈ d.updatedAt, isoParse (isoOfMs ts) = some ts)

/-- A record defines key `k` when the key is present with a value other
than `undefined`. -/
def definedF (o : JsObject) (k : String) : Prop :=
  ∃ v, lookupF o k = some v ∧ v ≠ JsValue.undef

/-- Lookup specification of `SimpleDiagram.toObj`. -/
def toObjDiagramSpec (d : SimpleDiagram) (k : String) : Option JsValue :=
  if k = "id" then some (.num d.id)
  else if k = "projectId" then some (.num d.projectId)
  else if k = "title" then some (.str d.title)
  else if k = "content" then some (.str d.content)
  else if k = "createdAt" then d.createdAt.map JsValue.date
  else if k = "updatedAt" then d.updatedAt.map JsValue.date
  else if k = "lastModifiedRemoteSha" then d.sha.map JsValue.str
  else lookupF d.extra k

theorem toObjDiagram_lookup (d : SimpleDiagram) (hwf : d.wf) (k : String) :
    lookupF d.toObj k = toObjDiagramSpec d k := by
  obtain ⟨i, pid, t, c, oc, ou, osha, extra⟩ := d
  obtain ⟨hid, hres, hnd, hcr, hup⟩ := hwf
  have havoid : ∀ q ∈ extra, q.1 ∉ reservedDiagramKeys := fun q hq => (hres q hq).1
  by_cases h1 : k = "id"
  · subst h1; cases oc <;> cases ou <;> cases osha <;> rfl
  by_cases h2 : k = "projectId"
  · subst h2; cases oc <;> cases ou <;> cases osha <;> rfl
  by_cases h3 : k = "title"
  · subst h3; cases oc <;> cases ou <;> cases osha <;> rfl
  by_cases h4 : k = "content"
  · subst h4; cases oc <;> cases ou <;> cases osha <;> rfl
  by_cases h5 : k = "createdAt"
  · subst h5
    have hnone : lookupF extra "createdAt" = none :=
      lookupF_none_of_avoid havoid (by decide)
    cases oc <;> cases ou <;> cases osha <;>
      simp [SimpleDiagram.toObj, toObjDiagramSpec, lookupF_append, lookupF,
        optionalF, hnone]
  by_cases h6 : k = "updatedAt"
  · subst h6
    have hnone : lookupF extra "updatedAt" = none :=
      lookupF_none_of_avoid havoid (by decide)
    cases oc <;> cases ou <;> cases osha <;>
      simp [SimpleDiagram.toObj, toObjDiagramSpec, lookupF_append, lookupF,
        optionalF, hnone]
  by_cases h7 : k = "lastModifiedRemoteSha"
  · subst h7
    have hnone : lookupF extra "lastModifiedRemoteSha" = none :=
      lookupF_none_of_avoid havoid (by decide)
    cases oc <;> cases ou <;> cases osha <;>
      simp [SimpleDiagram.toObj, toObjDiagramSpec, lookupF_append, lookupF,
        optionalF, hnone]
  · have hspec : toObjDiagramSpec ⟨i, pid, t, c, oc, ou, osha, extra⟩ k =
        lookupF extra k := by
      rw [toObjDiagramSpec, if_neg h1, if_neg h2, if_neg h3, if_neg h4,
        if_neg h5, if_neg h6, if_neg h7]
    rw [hspec]
    have hbase : lookupF [("id", JsValue.num i), ("projectId", JsValue.num pid),
        ("title", JsValue.str t), ("content", JsValue.str c)] k = none := by
      rw [lookupF, if_neg (fun he => h1 he.symm), lookupF, if_neg (fun he => h2 he.symm),
        lookupF, if_neg (fun he => h3 he.symm), lookupF, if_neg (fun he => h4 he.symm),
        lookupF]
    have hoc : lookupF (optionalF "createdAt" (oc.map JsValue.date)) k = none := by
      cases oc with
      | none => rfl
      | some ts =>
        show lookupF [("createdAt", JsValue.date ts)] k = none
        rw [lookupF, if_neg (fun he => h5 he.symm), lookupF]
    have hou : lookupF (optionalF "updatedAt" (ou.map JsValue.date)) k = none := by
      cases ou with
      | none => rfl
      | some ts =>
        show lookupF [("updatedAt", JsValue.date ts)] k = none
        rw [lookupF, if_neg (fun he => h6 he.symm), lookupF]
    have hos : lookupF (optionalF "lastModifiedRemoteSha" (osha.map JsValue.str)) k = none := by
      cases osha with
      | none => rfl
      | some s2 =>
        show lookupF [("lastModifiedRemoteSha", JsValue.str s2)] k = none
        rw [lookupF, if_neg (fun he => h7 he.symm), lookupF]
    rw [SimpleDiagram.toObj]
    simp only [List.append_assoc]
    rw [lookupF_append, hbase]
    rw [lookupF_append, hoc]
    rw [lookupF_append, hou]
    rw [lookupF_append, hos]

/-- The keys `toDiagramLD` destructures off a simple record. -/
def simpleDiagramKeys : List String :=
  ["id", "projectId", "title", "content", "createdAt", "updatedAt",
   "lastModifiedRemoteSha"]

/-- The keys `normalizeDiagram` destructures off a semantic record. -/
def semanticDiagramKeys : List String :=
  ["@context", "@id", "@type", "schema:name", "schema:text", "bfo:BFO_0000129",
   "schema:dateCreated", "schema:dateModified"]

theorem removeKeys_toObj (d : SimpleDiagram)
    (havoid : ∀ q ∈ d.extra, q.1 ∉ reservedDiagramKeys) :
    removeKeys d.toObj simpleDiagramKeys = d.extra := by
  obtain ⟨i, pid, t, c, oc, ou, osha, extra⟩ := d
  have hsub : ∀ x ∈ simpleDiagramKeys, x ∈ reservedDiagramKeys := by decide
  have havoid7 : ∀ q ∈ extra, q.1 ∉ simpleDiagramKeys := by
    intro q hq hmem
    exact havoid q hq (hsub _ hmem)
  cases oc <;> cases ou <;> cases osha <;> exact removeKeys_of_avoid havoid7

theorem isoOfMs_ne_nil (ms : Int) : isoOfMs ms ≠ [] := by
  rw [isoOfMs]
  intro h
  simp [List.append_eq_nil] at h

theorem truthy_iso (ms : Int) : truthy (.str (isoOfMs ms)) = true := by
  have hne := isoOfMs_ne_nil ms
  cases h : (isoOfMs ms).isEmpty with
  | false => simp [truthy, h]
  | true => exact absurd (List.isEmpty_iff.mp h) hne

/-- A Date field value of a simple record: the Date when present. -/
def optDate (o : Option Int) : JsValue :=
  match o with
  | some ts => .date ts
  | none => (.undef)

/-- The ISO rendering a timestamp denormalizes to (absent when absent). -/
def optIso (o : Option Int) : JsValue :=
  match o with
  | some ts => .str (isoOfMs ts)
  | none => (.undef)

/-- A string field value of a simple record, `undefined` when absent. -/
def optStr (o : Option JsStr) : JsValue :=
  match o with
  | some s2 => .str s2
  | none => (.undef)

/-- The JSON-LD literal `toDiagramLD` builds for a well-formed simple
diagram record, before the extra fields are spread in and the id written
back. -/
def ldDiagramBase (d : SimpleDiagram) : JsObject :=
  [("@context", .str (jstr "https://mermaid-ide.org/context/v1.jsonld")),
   ("@id", .str (jstr "urn:mermaid-ide:diagram:" ++ intToStr d.id)),
   ("@type", .str (jstr "bfo:BFO_0000031")),
   ("schema:name", .str d.title),
   ("schema:text", .str d.content),
   ("bfo:BFO_0000129", .obj [("@id",
     .str (jstr "urn:mermaid-ide:project:" ++ intToStr d.projectId))]),
   ("schema:dateCreated", optIso d.createdAt),
   ("schema:dateModified", optIso d.updatedAt),
   ("lastModifiedRemoteSha", optStr d.sha),
   ("_name_for_index", .str d.title),
   ("projectId", .num d.projectId)]

/-- The full JSON-LD record `toDiagramLD` returns on that input. -/
def ldDiagramOut (d : SimpleDiagram) : JsObject :=
  setF (spreadInto (ldDiagramBase d) d.extra) "id" (.num d.id)

theorem ldDiagramOut_lookup (d : SimpleDiagram) (hnd : (objKeys d.extra).Nodup)
    (k : String) :
    lookupF (ldDiagramOut d) k =
      if k = "id" then some (.num d.id)
      else
        match lookupF d.extra k with
        | some v => some v
        | none => lookupF (ldDiagramBase d) k := by
  rw [ldDiagramOut]
  by_cases hk : k = "id"
  · rw [if_pos hk, hk, lookupF_setF_same]
  · rw [if_neg hk, lookupF_setF_other _ _ _ _ (fun h => hk h.symm)]
    exact lookupF_spreadInto_nodup _ hnd k

theorem toDiagramLD_toObj (d : SimpleDiagram) (hwf : d.wf) :
    toDiagramLD d.toObj = .ok (ldDiagramOut d) := by
  obtain ⟨i, pid, t, c, oc, ou, osha, extra⟩ := d
  have havoid : ∀ q ∈ extra, q.1 ∉ reservedDiagramKeys :=
    fun q hq => (hwf.2.1 q hq).1
  have hnz : i ≠ 0 := hwf.1
  have hex : ∀ kk : String, kk ∈ reservedDiagramKeys → lookupF extra kk = none :=
    fun kk hk => lookupF_none_of_avoid havoid hk
  have hL := toObjDiagram_lookup ⟨i, pid, t, c, oc, ou, osha, extra⟩ hwf
  have hctx : getF (SimpleDiagram.toObj ⟨i, pid, t, c, oc, ou, osha, extra⟩)
      "@context" = .undef := by
    rw [getF, hL]
    show (lookupF extra "@context").getD .undef = .undef
    rw [hex "@context" (by decide)]
    rfl
  have hgcr : getF (SimpleDiagram.toObj ⟨i, pid, t, c, oc, ou, osha, extra⟩)
      "createdAt" = optDate oc := by
    rw [getF, hL]
    show (Option.map JsValue.date oc).getD .undef = _
    cases oc <;> rfl
  have hgup : getF (SimpleDiagram.toObj ⟨i, pid, t, c, oc, ou, osha, extra⟩)
      "updatedAt" = optDate ou := by
    rw [getF, hL]
    show (Option.map JsValue.date ou).getD .undef = _
    cases ou <;> rfl
  have hgsha : getF (SimpleDiagram.toObj ⟨i, pid, t, c, oc, ou, osha, extra⟩)
      "lastModifiedRemoteSha" = optStr osha := by
    rw [getF, hL]
    show (Option.map JsValue.str osha).getD .undef = _
    cases osha <;> rfl
  have hrest : removeKeys (SimpleDiagram.toObj ⟨i, pid, t, c, oc, ou, osha, extra⟩)
      ["id", "projectId", "title", "content", "createdAt", "updatedAt",
       "lastModifiedRemoteSha"] = extra :=
    removeKeys_toObj ⟨i, pid, t, c, oc, ou, osha, extra⟩ havoid
  have htr : truthy (getF (SimpleDiagram.toObj ⟨i, pid, t, c, oc, ou, osha, extra⟩)
      "id") = true := by
    have hv : getF (SimpleDiagram.toObj ⟨i, pid, t, c, oc, ou, osha, extra⟩) "id" =
        .num i := by
      rw [getF, hL]
      rfl
    rw [hv]
    simp [truthy, hnz]
  simp only [toDiagramLD, hctx, hgcr, hgup, hgsha, hrest, htr]
  cases oc <;> cases ou <;> rfl

/-- The simple-record literal `normalizeDiagram` rebuilds (before the
rest spread) out of a round-tripped well-formed diagram record. -/
def normalizedDiagramBase (d : SimpleDiagram) : JsObject :=
  [("id", .num d.id), ("projectId", .num d.projectId),
   ("title", .str d.title), ("content", .str d.content),
   ("createdAt", optDate d.createdAt), ("updatedAt", optDate d.updatedAt)]

/-- The object the full round trip produces on a well-formed simple
diagram record. -/
def roundTripDiagramOut (d : SimpleDiagram) : JsObject :=
  spreadInto (normalizedDiagramBase d)
    (removeKeys (ldDiagramOut d) semanticDiagramKeys)

theorem ldOut_getF_base (d : SimpleDiagram) (hnd : (objKeys d.extra).Nodup)
    (k : String) (hk1 : k ≠ "id") (hk2 : lookupF d.extra k = none) :
    getF (ldDiagramOut d) k = getF (ldDiagramBase d) k := by
  rw [getF, ldDiagramOut_lookup d hnd k, if_neg hk1, hk2, getF]

set_option maxHeartbeats 2000000 in
theorem normalizeDiagram_ldOut (d : SimpleDiagram) (hwf : d.wf) :
    normalizeDiagram (.obj (ldDiagramOut d)) = .ok (.obj (roundTripDiagramOut d)) := by
  obtain ⟨i, pid, t, c, oc, ou, osha, extra⟩ := d
  have hnd : (objKeys extra).Nodup := hwf.2.2.1
  have havoid : ∀ q ∈ extra, q.1 ∉ reservedDiagramKeys :=
    fun q hq => (hwf.2.1 q hq).1
  have hex : ∀ kk : String, kk ∈ reservedDiagramKeys → lookupF extra kk = none :=
    fun kk hk => lookupF_none_of_avoid havoid hk
  have hb1 := ldOut_getF_base ⟨i, pid, t, c, oc, ou, osha, extra⟩ hnd "@context"
    (by decide) (hex _ (by decide))
  have hb2 := ldOut_getF_base ⟨i, pid, t, c, oc, ou, osha, extra⟩ hnd "@type"
    (by decide) (hex _ (by decide))
  have hb3 := ldOut_getF_base ⟨i, pid, t, c, oc, ou, osha, extra⟩ hnd "@id"
    (by decide) (hex _ (by decide))
  have hb4 := ldOut_getF_base ⟨i, pid, t, c, oc, ou, osha, extra⟩ hnd "bfo:BFO_0000129"
    (by decide) (hex _ (by decide))
  have hb5 := ldOut_getF_base ⟨i, pid, t, c, oc, ou, osha, extra⟩ hnd "schema:dateCreated"
    (by decide) (hex _ (by decide))
  have hb6 := ldOut_getF_base ⟨i, pid, t, c, oc, ou, osha, extra⟩ hnd "schema:dateModified"
    (by decide) (hex _ (by decide))
  have hbn := ldOut_getF_base ⟨i, pid, t, c, oc, ou, osha, extra⟩ hnd "schema:name"
    (by decide) (hex _ (by decide))
  have hbt := ldOut_getF_base ⟨i, pid, t, c, oc, ou, osha, extra⟩ hnd "schema:text"
    (by decide) (hex _ (by decide))
  have hguard : (truthy (getF (ldDiagramOut ⟨i, pid, t, c, oc, ou, osha, extra⟩)
      "@context") &&
      strEq (getF (ldDiagramOut ⟨i, pid, t, c, oc, ou, osha, extra⟩) "@type")
        (jstr "bfo:BFO_0000031")) = true := by
    rw [hb1, hb2]
    rfl
  have hv3 : getF (ldDiagramOut ⟨i, pid, t, c, oc, ou, osha, extra⟩) "@id" =
      .str (jstr "urn:mermaid-ide:diagram:" ++ intToStr i) := by
    rw [hb3]
    rfl
  have hv4 : getF (ldDiagramOut ⟨i, pid, t, c, oc, ou, osha, extra⟩)
      "bfo:BFO_0000129" =
      .obj [("@id", .str (jstr "urn:mermaid-ide:project:" ++ intToStr pid))] := by
    rw [hb4]
    rfl
  have hacc : propAccess (JsValue.obj [("@id",
      JsValue.str (jstr "urn:mermaid-ide:project:" ++ intToStr pid))]) "@id" =
      .ok (.str (jstr "urn:mermaid-ide:project:" ++ intToStr pid)) := rfl
  have hvn : getF (ldDiagramOut ⟨i, pid, t, c, oc, ou, osha, extra⟩) "schema:name" =
      .str t := by
    rw [hbn]
    rfl
  have hvt : getF (ldDiagramOut ⟨i, pid, t, c, oc, ou, osha, extra⟩) "schema:text" =
      .str c := by
    rw [hbt]
    rfl
  have hparse1 : numOfParse (parseIntJs (jsPop (splitCode 58
      (jstr "urn:mermaid-ide:diagram:" ++ intToStr i)))) = JsValue.num i := by
    rw [diagram_urn_parse]
    rfl
  have hparse2 : numOfParse (parseIntJs (jsPop (splitCode 58
      (jstr "urn:mermaid-ide:project:" ++ intToStr pid)))) = JsValue.num pid := by
    rw [project_urn_parse]
    rfl
  have hcrv : getF (ldDiagramOut ⟨i, pid, t, c, oc, ou, osha, extra⟩)
      "schema:dateCreated" = optIso oc := by
    rw [hb5]
    rfl
  have hupv : getF (ldDiagramOut ⟨i, pid, t, c, oc, ou, osha, extra⟩)
      "schema:dateModified" = optIso ou := by
    rw [hb6]
    rfl
  have hbindS : ∀ (x : JsStr) (f : JsStr → Except JsErr JsValue),
      (Bind.bind (Except.ok x) f : Except JsErr JsValue) = f x := fun _ _ => rfl
  have hbindV : ∀ (x : JsValue) (f : JsValue → Except JsErr JsValue),
      (Bind.bind (Except.ok x) f : Except JsErr JsValue) = f x := fun _ _ => rfl
  simp only [normalizeDiagram, hguard, if_true, splitColonPop, hv3, hv4, hacc, hvn,
    hvt, hbindS, hbindV, hparse1, hparse2, hcrv, hupv, roundTripDiagramOut,
    normalizedDiagramBase, semanticDiagramKeys]
  cases oc with
  | none =>
    cases ou with
    | none => rfl
    | some tu =>
      have hisoU : isoParse (isoOfMs tu) = some tu := hwf.2.2.2.2 tu rfl
      simp only [optIso, truthy_iso, if_true, jsNewDate, hisoU]
      rfl
  | some tc =>
    have hisoC : isoParse (isoOfMs tc) = some tc := hwf.2.2.2.1 tc rfl
    cases ou with
    | none =>
      simp only [optIso, truthy_iso, if_true, jsNewDate, hisoC]
      rfl
    | some tu =>
      have hisoU : isoParse (isoOfMs tu) = some tu := hwf.2.2.2.2 tu rfl
      simp only [optIso, truthy_iso, if_true, jsNewDate, hisoC, hisoU]
      rfl

/-- Lookup specification of the round trip's result on a well-formed
simple diagram record: every original field keeps its value, the derived
`_name_for_index` appears set to the title, and the optional fields
appear as keys whose value is `undefined` when they were absent. -/
def rtDiagramSpec (d : SimpleDiagram) (k : String) : Option JsValue :=
  if k = "id" then some (.num d.id)
  else if k = "projectId" then some (.num d.projectId)
  else if k = "title" then some (.str d.title)
  else if k = "content" then some (.str d.content)
  else if k = "createdAt" then some (optDate d.createdAt)
  else if k = "updatedAt" then some (optDate d.updatedAt)
  else if k = "lastModifiedRemoteSha" then some (optStr d.sha)
  else if k = "_name_for_index" then some (.str d.title)
  else lookupF d.extra k

theorem roundTripDiagramOut_lookup (d : SimpleDiagram) (hwf : d.wf) (k : String) :
    lookupF (roundTripDiagramOut d) k = rtDiagramSpec d k := by
  have hnd : (objKeys d.extra).Nodup := hwf.2.2.1
  have havoid : ∀ q ∈ d.extra, q.1 ∉ reservedDiagramKeys :=
    fun q hq => (hwf.2.1 q hq).1
  have hex : ∀ kk : String, kk ∈ reservedDiagramKeys → lookupF d.extra kk = none :=
    fun kk hk => lookupF_none_of_avoid havoid hk
  have hnd11 : (objKeys (ldDiagramBase d)).Nodup := by
    have hkeys : objKeys (ldDiagramBase d) =
        ["@context", "@id", "@type", "schema:name", "schema:text",
         "bfo:BFO_0000129", "schema:dateCreated", "schema:dateModified",
         "lastModifiedRemoteSha", "_name_for_index", "projectId"] := rfl
    rw [hkeys]
    decide
  have hndout : (objKeys (ldDiagramOut d)).Nodup := by
    rw [ldDiagramOut]
    exact nodup_keys_setF (nodup_keys_spreadInto d.extra hnd11) "id" (.num d.id)
  have hndr2 : (objKeys (removeKeys (ldDiagramOut d) semanticDiagramKeys)).Nodup :=
    nodup_keys_removeKeys _ hndout
  have hmain : lookupF (roundTripDiagramOut d) k =
      match (if k ∈ semanticDiagramKeys then none
             else lookupF (ldDiagramOut d) k) with
      | some v => some v
      | none => lookupF (normalizedDiagramBase d) k := by
    rw [roundTripDiagramOut, lookupF_spreadInto_nodup _ hndr2, lookupF_removeKeys]
  by_cases h1 : k = "id"
  · subst h1
    rw [hmain, if_neg (by decide : ("id" : String) ∉ semanticDiagramKeys),
      ldDiagramOut_lookup d hnd]
    rfl
  by_cases h2 : k = "projectId"
  · subst h2
    rw [hmain, if_neg (by decide : ("projectId" : String) ∉ semanticDiagramKeys),
      ldDiagramOut_lookup d hnd, hex "projectId" (by decide)]
    rfl
  by_cases h3 : k = "title"
  · subst h3
    rw [hmain, if_neg (by decide : ("title" : String) ∉ semanticDiagramKeys),
      ldDiagramOut_lookup d hnd, hex "title" (by decide)]
    rfl
  by_cases h4 : k = "content"
  · subst h4
    rw [hmain, if_neg (by decide : ("content" : String) ∉ semanticDiagramKeys),
      ldDiagramOut_lookup d hnd, hex "content" (by decide)]
    rfl
  by_cases h5 : k = "createdAt"
  · subst h5
    rw [hmain, if_neg (by decide : ("createdAt" : String) ∉ semanticDiagramKeys),
      ldDiagramOut_lookup d hnd, hex "createdAt" (by decide)]
    rfl
  by_cases h6 : k = "updatedAt"
  · subst h6
    rw [hmain, if_neg (by decide : ("updatedAt" : String) ∉ semanticDiagramKeys),
      ldDiagramOut_lookup d hnd, hex "updatedAt" (by decide)]
    rfl
  by_cases h7 : k = "lastModifiedRemoteSha"
  · subst h7
    rw [hmain,
      if_neg (by decide : ("lastModifiedRemoteSha" : String) ∉ semanticDiagramKeys),
      ldDiagramOut_lookup d hnd, hex "lastModifiedRemoteSha" (by decide)]
    rfl
  by_cases h8 : k = "_name_for_index"
  · subst h8
    rw [hmain,
      if_neg (by decide : ("_name_for_index" : String) ∉ semanticDiagramKeys),
      ldDiagramOut_lookup d hnd, hex "_name_for_index" (by decide)]
    rfl
  by_cases hs1 : k = "@context"
  · subst hs1
    rw [hmain, if_pos (by decide)]
    show (none : Option JsValue) = lookupF d.extra "@context"
    exact (hex _ (by decide)).symm
  by_cases hs2 : k = "@id"
  · subst hs2
    rw [hmain, if_pos (by decide)]
    show (none : Option JsValue) = lookupF d.extra "@id"
    exact (hex _ (by decide)).symm
  by_cases hs3 : k = "@type"
  · subst hs3
    rw [hmain, if_pos (by decide)]
    show (none : Option JsValue) = lookupF d.extra "@type"
    exact (hex _ (by decide)).symm
  by_cases hs4 : k = "schema:name"
  · subst hs4
    rw [hmain, if_pos (by decide)]
    show (none : Option JsValue) = lookupF d.extra "schema:name"
    exact (hex _ (by decide)).symm
  by_cases hs5 : k = "schema:text"
  · subst hs5
    rw [hmain, if_pos (by decide)]
    show (none : Option JsValue) = lookupF d.extra "schema:text"
    exact (hex _ (by decide)).symm
  by_cases hs6 : k = "bfo:BFO_0000129"
  · subst hs6
    rw [hmain, if_pos (by decide)]
    show (none : Option JsValue) = lookupF d.extra "bfo:BFO_0000129"
    exact (hex _ (by decide)).symm
  by_cases hs7 : k = "schema:dateCreated"
  · subst hs7
    rw [hmain, if_pos (by decide)]
    show (none : Option JsValue) = lookupF d.extra "schema:dateCreated"
    exact (hex _ (by decide)).symm
  by_cases hs8 : k = "schema:dateModified"
  · subst hs8
    rw [hmain, if_pos (by decide)]
    show (none : Option JsValue) = lookupF d.extra "schema:dateModified"
    exact (hex _ (by decide)).symm
  · have hsem : k ∉ semanticDiagramKeys := by
      intro hm
      rw [semanticDiagramKeys] at hm
      simp only [List.mem_cons, List.not_mem_nil, or_false] at hm
      rcases hm with h | h | h | h | h | h | h | h
      exacts [hs1 h, hs2 h, hs3 h, hs4 h, hs5 h, hs6 h, hs7 h, hs8 h]
    have hbase_none : lookupF (ldDiagramBase d) k = none := by
      rw [lookupF_eq_none_iff]
      intro hm
      have hkeys : objKeys (ldDiagramBase d) =
          ["@context", "@id", "@type", "schema:name", "schema:text",
           "bfo:BFO_0000129", "schema:dateCreated", "schema:dateModified",
           "lastModifiedRemoteSha", "_name_for_index", "projectId"] := rfl
      rw [hkeys] at hm
      simp only [List.mem_cons, List.not_mem_nil, or_false] at hm
      rcases hm with h | h | h | h | h | h | h | h | h | h | h
      exacts [hs1 h, hs2 h, hs3 h, hs4 h, hs5 h, hs6 h, hs7 h, hs8 h,
        h7 h, h8 h, h2 h]
    have hnb_none : lookupF (normalizedDiagramBase d) k = none := by
      rw [lookupF_eq_none_iff]
      intro hm
      have hkeys : objKeys (normalizedDiagramBase d) =
          ["id", "projectId", "title", "content", "createdAt", "updatedAt"] := rfl
      rw [hkeys] at hm
      simp only [List.mem_cons, List.not_mem_nil, or_false] at hm
      rcases hm with h | h | h | h | h | h
      exacts [h1 h, h2 h, h3 h, h4 h, h5 h, h6 h]
    have hspec : rtDiagramSpec d k = lookupF d.extra k := by
      rw [rtDiagramSpec, if_neg h1, if_neg h2, if_neg h3, if_neg h4, if_neg h5,
        if_neg h6, if_neg h7, if_neg h8]
    rw [hmain, if_neg hsem, ldDiagramOut_lookup d hnd, if_neg h1, hspec]
    cases hval : lookupF d.extra k with
    | some v => simp only [hval]
    | none =>
      simp only [hval, hbase_none, hnb_none]

theorem rtSpec_agrees (d : SimpleDiagram) (hwf : d.wf) (k : String)
    (hk : (toObjDiagramSpec d k).isSome) :
    rtDiagramSpec d k = toObjDiagramSpec d k := by
  have hexi : lookupF d.extra "_name_for_index" = none :=
    lookupF_none_of_avoid (fun q hq => (hwf.2.1 q hq).1) (by decide)
  rw [toObjDiagramSpec] at hk
  rw [rtDiagramSpec, toObjDiagramSpec]
  by_cases h1 : k = "id"
  · rw [if_pos h1, if_pos h1]
  rw [if_neg h1, if_neg h1]
  rw [if_neg h1] at hk
  by_cases h2 : k = "projectId"
  · rw [if_pos h2, if_pos h2]
  rw [if_neg h2, if_neg h2]
  rw [if_neg h2] at hk
  by_cases h3 : k = "title"
  · rw [if_pos h3, if_pos h3]
  rw [if_neg h3, if_neg h3]
  rw [if_neg h3] at hk
  by_cases h4 : k = "content"
  · rw [if_pos h4, if_pos h4]
  rw [if_neg h4, if_neg h4]
  rw [if_neg h4] at hk
  by_cases h5 : k = "createdAt"
  · rw [if_pos h5, if_pos h5]
    rw [if_pos h5] at hk
    cases hoc : d.createdAt with
    | none => rw [hoc] at hk; simp at hk
    | some ts => rfl
  rw [if_neg h5, if_neg h5]
  rw [if_neg h5] at hk
  by_cases h6 : k = "updatedAt"
  · rw [if_pos h6, if_pos h6]
    rw [if_pos h6] at hk
    cases hou : d.updatedAt with
    | none => rw [hou] at hk; simp at hk
    | some ts => rfl
  rw [if_neg h6, if_neg h6]
  rw [if_neg h6] at hk
  by_cases h7 : k = "lastModifiedRemoteSha"
  · rw [if_pos h7, if_pos h7]
    rw [if_pos h7] at hk
    cases hos : d.sha with
    | none => rw [hos] at hk; simp at hk
    | some s2 => rfl
  rw [if_neg h7, if_neg h7]
  rw [if_neg h7] at hk
  by_cases h8 : k = "_name_for_index"
  · rw [if_pos h8]
    subst h8
    rw [hexi] at hk
    simp at hk
  rw [if_neg h8]

theorem rtSpec_defined (d : SimpleDiagram) (k : String) (v : JsValue)
    (hv : rtDiagramSpec d k = some v) (hne : v ≠ .undef) :
    (toObjDiagramSpec d k).isSome ∨ k = "_name_for_index" := by
  rw [rtDiagramSpec] at hv
  rw [toObjDiagramSpec]
  by_cases h1 : k = "id"
  · rw [if_pos h1]; exact .inl rfl
  rw [if_neg h1]
  rw [if_neg h1] at hv
  by_cases h2 : k = "projectId"
  · rw [if_pos h2]; exact .inl rfl
  rw [if_neg h2]
  rw [if_neg h2] at hv
  by_cases h3 : k = "title"
  · rw [if_pos h3]; exact .inl rfl
  rw [if_neg h3]
  rw [if_neg h3] at hv
  by_cases h4 : k = "content"
  · rw [if_pos h4]; exact .inl rfl
  rw [if_neg h4]
  rw [if_neg h4] at hv
  by_cases h5 : k = "createdAt"
  · rw [if_pos h5]
    rw [if_pos h5] at hv
    cases hoc : d.createdAt with
    | none =>
      rw [hoc] at hv
      have : v = JsValue.undef := by
        have := Option.some.inj hv
        rw [← this]
        rfl
      exact absurd this hne
    | some ts => exact .inl rfl
  rw [if_neg h5]
  rw [if_neg h5] at hv
  by_cases h6 : k = "updatedAt"
  · rw [if_pos h6]
    rw [if_pos h6] at hv
    cases hou : d.updatedAt with
    | none =>
      rw [hou] at hv
      have : v = JsValue.undef := by
        have := Option.some.inj hv
        rw [← this]
        rfl
      exact absurd this hne
    | some ts => exact .inl rfl
  rw [if_neg h6]
  rw [if_neg h6] at hv
  by_cases h7 : k = "lastModifiedRemoteSha"
  · rw [if_pos h7]
    rw [if_pos h7] at hv
    cases hos : d.sha with
    | none =>
      rw [hos] at hv
      have : v = JsValue.undef := by
        have := Option.some.inj hv
        rw [← this]
        rfl
      exact absurd this hne
    | some s2 => exact .inl rfl
  rw [if_neg h7]
  rw [if_neg h7] at hv
  by_cases h8 : k = "_name_for_index"
  · exact .inr h8
  rw [if_neg h8] at hv
  exact .inl (by rw [hv]; rfl)

/-- Keys with a meaning in the project schema. -/
def reservedProjectKeys : List String :=
  ["@context", "@id", "@type", "schema:name", "schema:dateCreated",
   "schema:dateModified", "id", "name", "createdAt", "updatedAt",
   "_name_for_index"]

/-- A simple-shape project record (gitProvider, repositoryPath and any
other app fields travel in `extra`, as `toProjectLD` passes them through
its rest spread). -/
structure SimpleProject where
  id : Int
  name : JsStr
  createdAt : Option Int
  updatedAt : Option Int
  extra : JsObject

def SimpleProject.toObj (p : SimpleProject) : JsObject :=
  [("id", .num p.id), ("name", .str p.name)]
  ++ optionalF "createdAt" (p.createdAt.map JsValue.date)
  ++ optionalF "updatedAt" (p.updatedAt.map JsValue.date)
  ++ p.extra

def SimpleProject.wf (p : SimpleProject) : Prop :=
  p.id ≠ 0 ∧
  (∀ q ∈ p.extra, q.1 ∉ reservedProjectKeys ∧ q.2 ≠ JsValue.undef) ∧
  (objKeys p.extra).Nodup ∧
  (∀ ts ∈ p.createdAt, isoParse (isoOfMs ts) = some ts) ∧
  (∀ ts ∈ p.updatedAt, isoParse (isoOfMs ts) = some ts)

/-- Lookup specification of `SimpleProject.toObj`. -/
def toObjProjectSpec (p : SimpleProject) (k : String) : Option JsValue :=
  if k = "id" then some (.num p.id)
  else if k = "name" then some (.str p.name)
  else if k = "createdAt" then p.createdAt.map JsValue.date
  else if k = "updatedAt" then p.updatedAt.map JsValue.date
  else lookupF p.extra k

theorem toObjProject_lookup (p : SimpleProject) (hwf : p.wf) (k : String) :
    lookupF p.toObj k = toObjProjectSpec p k := by
  obtain ⟨i, nm, oc, ou, extra⟩ := p
  obtain ⟨hid, hres, hnd, hcr, hup⟩ := hwf
  have havoid : ∀ q ∈ extra, q.1 ∉ reservedProjectKeys := fun q hq => (hres q hq).1
  by_cases h1 : k = "id"
  · subst h1; cases oc <;> cases ou <;> rfl
  by_cases h2 : k = "name"
  · subst h2; cases oc <;> cases ou <;> rfl
  by_cases h3 : k = "createdAt"
  · subst h3
    have hnone : lookupF extra "createdAt" = none :=
      lookupF_none_of_avoid havoid (by decide)
    cases oc <;> cases ou <;>
      simp [SimpleProject.toObj, toObjProjectSpec, lookupF_append, lookupF,
        optionalF, hnone]
  by_cases h4 : k = "updatedAt"
  · subst h4
    have hnone : lookupF extra "updatedAt" = none :=
      lookupF_none_of_avoid havoid (by decide)
    cases oc <;> cases ou <;>
      simp [SimpleProject.toObj, toObjProjectSpec, lookupF_append, lookupF,
        optionalF, hnone]
  · have hspec : toObjProjectSpec ⟨i, nm, oc, ou, extra⟩ k = lookupF extra k := by
      rw [toObjProjectSpec, if_neg h1, if_neg h2, if_neg h3, if_neg h4]
    rw [hspec]
    have hbase : lookupF [("id", JsValue.num i), ("name", JsValue.str nm)] k = none := by
      rw [lookupF, if_neg (fun he => h1 he.symm), lookupF,
        if_neg (fun he => h2 he.symm), lookupF]
    have hoc : lookupF (optionalF "createdAt" (oc.map JsValue.date)) k = none := by
      cases oc with
      | none => rfl
      | some ts =>
        show lookupF [("createdAt", JsValue.date ts)] k = none
        rw [lookupF, if_neg (fun he => h3 he.symm), lookupF]
    have hou : lookupF (optionalF "updatedAt" (ou.map JsValue.date)) k = none := by
      cases ou with
      | none => rfl
      | some ts =>
        show lookupF [("updatedAt", JsValue.date ts)] k = none
        rw [lookupF, if_neg (fun he => h4 he.symm), lookupF]
    rw [SimpleProject.toObj]
    simp only [List.append_assoc]
    rw [lookupF_append, hbase]
    rw [lookupF_append, hoc]
    rw [lookupF_append, hou]

/-- The keys `toProjectLD` destructures off a simple record. -/
def simpleProjectKeys : List String := ["id", "name", "createdAt", "updatedAt"]

/-- The keys `normalizeProject` destructures off a semantic record. -/
def semanticProjectKeys : List String :=
  ["@context", "@id", "@type", "schema:name", "schema:dateCreated",
   "schema:dateModified"]

theorem removeKeys_toObjP (p : SimpleProject)
    (havoid : ∀ q ∈ p.extra, q.1 ∉ reservedProjectKeys) :
    removeKeys p.toObj simpleProjectKeys = p.extra := by
  obtain ⟨i, nm, oc, ou, extra⟩ := p
  have hsub : ∀ x ∈ simpleProjectKeys, x ∈ reservedProjectKeys := by decide
  have havoid4 : ∀ q ∈ extra, q.1 ∉ simpleProjectKeys := by
    intro q hq hmem
    exact havoid q hq (hsub _ hmem)
  cases oc <;> cases ou <;> exact removeKeys_of_avoid havoid4

/-- The JSON-LD literal `toProjectLD` builds for a well-formed simple
project record, before the extra spread and the id write-back. -/
def ldProjectBase (p : SimpleProject) : JsObject :=
  [("@context", .str (jstr "https://mermaid-ide.org/context/v1.jsonld")),
   ("@id", .str (jstr "urn:mermaid-ide:project:" ++ intToStr p.id)),
   ("@type", .str (jstr "bfo:BFO_0000027")),
   ("schema:name", .str p.name),
   ("schema:dateCreated", optIso p.createdAt),
   ("schema:dateModified", optIso p.updatedAt),
   ("_name_for_index", .str p.name)]

/-- The full JSON-LD record `toProjectLD` returns on that input. -/
def ldProjectOut (p : SimpleProject) : JsObject :=
  setF (spreadInto (ldProjectBase p) p.extra) "id" (.num p.id)

theorem ldProjectOut_lookup (p : SimpleProject) (hnd : (objKeys p.extra).Nodup)
    (k : String) :
    lookupF (ldProjectOut p) k =
      if k = "id" then some (.num p.id)
      else
        match lookupF p.extra k with
        | some v => some v
        | none => lookupF (ldProjectBase p) k := by
  rw [ldProjectOut]
  by_cases hk : k = "id"
  · rw [if_pos hk, hk, lookupF_setF_same]
  · rw [if_neg hk, lookupF_setF_other _ _ _ _ (fun h => hk h.symm)]
    exact lookupF_spreadInto_nodup _ hnd k

theorem toProjectLD_toObj (p : SimpleProject) (hwf : p.wf) :
    toProjectLD p.toObj = .ok (ldProjectOut p) := by
  obtain ⟨i, nm, oc, ou, extra⟩ := p
  have havoid : ∀ q ∈ extra, q.1 ∉ reservedProjectKeys :=
    fun q hq => (hwf.2.1 q hq).1
  have hnz : i ≠ 0 := hwf.1
  have hex : ∀ kk : String, kk ∈ reservedProjectKeys → lookupF extra kk = none :=
    fun kk hk => lookupF_none_of_avoid havoid hk
  have hL := toObjProject_lookup ⟨i, nm, oc, ou, extra⟩ hwf
  have hctx : getF (SimpleProject.toObj ⟨i, nm, oc, ou, extra⟩) "@context" = .undef := by
    rw [getF, hL]
    show (lookupF extra "@context").getD .undef = .undef
    rw [hex "@context" (by decide)]
    rfl
  have hgcr : getF (SimpleProject.toObj ⟨i, nm, oc, ou, extra⟩) "createdAt" =
      optDate oc := by
    rw [getF, hL]
    show (Option.map JsValue.date oc).getD .undef = _
    cases oc <;> rfl
  have hgup : getF (SimpleProject.toObj ⟨i, nm, oc, ou, extra⟩) "updatedAt" =
      optDate ou := by
    rw [getF, hL]
    show (Option.map JsValue.date ou).getD .undef = _
    cases ou <;> rfl
  have hrest : removeKeys (SimpleProject.toObj ⟨i, nm, oc, ou, extra⟩)
      ["id", "name", "createdAt", "updatedAt"] = extra :=
    removeKeys_toObjP ⟨i, nm, oc, ou, extra⟩ havoid
  have htr : truthy (getF (SimpleProject.toObj ⟨i, nm, oc, ou, extra⟩) "id") = true := by
    have hv : getF (SimpleProject.toObj ⟨i, nm, oc, ou, extra⟩) "id" = .num i := by
      rw [getF, hL]
      rfl
    rw [hv]
    simp [truthy, hnz]
  simp only [toProjectLD, hctx, hgcr, hgup, hrest, htr]
  cases oc <;> cases ou <;> rfl

/-- The simple-record literal `normalizeProject` rebuilds before the rest
spread. -/
def normalizedProjectBase (p : SimpleProject) : JsObject :=
  [("id", .num p.id), ("name", .str p.name),
   ("createdAt", optDate p.createdAt), ("updatedAt", optDate p.updatedAt)]

/-- The object the full round trip produces on a well-formed simple
project record. -/
def roundTripProjectOut (p : SimpleProject) : JsObject :=
  spreadInto (normalizedProjectBase p)
    (removeKeys (ldProjectOut p) semanticProjectKeys)

theorem ldOutP_getF_base (p : SimpleProject) (hnd : (objKeys p.extra).Nodup)
    (k : String) (hk1 : k ≠ "id") (hk2 : lookupF p.extra k = none) :
    getF (ldProjectOut p) k = getF (ldProjectBase p) k := by
  rw [getF, ldProjectOut_lookup p hnd k, if_neg hk1, hk2, getF]

set_option maxHeartbeats 2000000 in
theorem normalizeProject_ldOut (p : SimpleProject) (hwf : p.wf) :
    normalizeProject (.obj (ldProjectOut p)) = .ok (.obj (roundTripProjectOut p)) := by
  obtain ⟨i, nm, oc, ou, extra⟩ := p
  have hnd : (objKeys extra).Nodup := hwf.2.2.1
  have havoid : ∀ q ∈ extra, q.1 ∉ reservedProjectKeys :=
    fun q hq => (hwf.2.1 q hq).1
  have hex : ∀ kk : String, kk ∈ reservedProjectKeys → lookupF extra kk = none :=
    fun kk hk => lookupF_none_of_avoid havoid hk
  have hb1 := ldOutP_getF_base ⟨i, nm, oc, ou, extra⟩ hnd "@context"
    (by decide) (hex _ (by decide))
  have hb2 := ldOutP_getF_base ⟨i, nm, oc, ou, extra⟩ hnd "@type"
    (by decide) (hex _ (by decide))
  have hb3 := ldOutP_getF_base ⟨i, nm, oc, ou, extra⟩ hnd "@id"
    (by decide) (hex _ (by decide))
  have hbn := ldOutP_getF_base ⟨i, nm, oc, ou, extra⟩ hnd "schema:name"
    (by decide) (hex _ (by decide))
  have hb5 := ldOutP_getF_base ⟨i, nm, oc, ou, extra⟩ hnd "schema:dateCreated"
    (by decide) (hex _ (by decide))
  have hb6 := ldOutP_getF_base ⟨i, nm, oc, ou, extra⟩ hnd "schema:dateModified"
    (by decide) (hex _ (by decide))
  have hguard : (truthy (getF (ldProjectOut ⟨i, nm, oc, ou, extra⟩) "@context") &&
      strEq (getF (ldProjectOut ⟨i, nm, oc, ou, extra⟩) "@type")
        (jstr "bfo:BFO_0000027")) = true := by
    rw [hb1, hb2]
    rfl
  have hv3 : getF (ldProjectOut ⟨i, nm, oc, ou, extra⟩) "@id" =
      .str (jstr "urn:mermaid-ide:project:" ++ intToStr i) := by
    rw [hb3]
    rfl
  have hvn : getF (ldProjectOut ⟨i, nm, oc, ou, extra⟩) "schema:name" = .str nm := by
    rw [hbn]
    rfl
  have hparse : numOfParse (parseIntJs (jsPop (splitCode 58
      (jstr "urn:mermaid-ide:project:" ++ intToStr i)))) = JsValue.num i := by
    rw [project_urn_parse]
    rfl
  have hcrv : getF (ldProjectOut ⟨i, nm, oc, ou, extra⟩) "schema:dateCreated" =
      optIso oc := by
    rw [hb5]
    rfl
  have hupv : getF (ldProjectOut ⟨i, nm, oc, ou, extra⟩) "schema:dateModified" =
      optIso ou := by
    rw [hb6]
    rfl
  have hbindS : ∀ (x : JsStr) (f : JsStr → Except JsErr JsValue),
      (Bind.bind (Except.ok x) f : Except JsErr JsValue) = f x := fun _ _ => rfl
  simp only [normalizeProject, hguard, if_true, splitColonPop, hv3, hvn, hbindS,
    hparse, hcrv, hupv, roundTripProjectOut, normalizedProjectBase,
    semanticProjectKeys]
  cases oc with
  | none =>
    cases ou with
    | none => rfl
    | some tu =>
      have hisoU : isoParse (isoOfMs tu) = some tu := hwf.2.2.2.2 tu rfl
      simp only [optIso, truthy_iso, if_true, jsNewDate, hisoU]
      rfl
  | some tc =>
    have hisoC : isoParse (isoOfMs tc) = some tc := hwf.2.2.2.1 tc rfl
    cases ou with
    | none =>
      simp only [optIso, truthy_iso, if_true, jsNewDate, hisoC]
      rfl
    | some tu =>
      have hisoU : isoParse (isoOfMs tu) = some tu := hwf.2.2.2.2 tu rfl
      simp only [optIso, truthy_iso, if_true, jsNewDate, hisoC, hisoU]
      rfl

/-- `normalizeProject(toProjectLD(project))`: the project
denormalize/normalize round trip. -/
def roundTripProject (o : JsObject) : Except JsErr JsValue :=
  match toProjectLD o with
  | .ok ld => normalizeProject (.obj ld)
  | .error e => .error e

/-- Lookup specification of the round trip's result on a well-formed
simple project record. -/
def rtProjectSpec (p : SimpleProject) (k : String) : Option JsValue :=
  if k = "id" then some (.num p.id)
  else if k = "name" then some (.str p.name)
  else if k = "createdAt" then some (optDate p.createdAt)
  else if k = "updatedAt" then some (optDate p.updatedAt)
  else if k = "_name_for_index" then some (.str p.name)
  else lookupF p.extra k

theorem roundTripProjectOut_lookup (p : SimpleProject) (hwf : p.wf) (k : String) :
    lookupF (roundTripProjectOut p) k = rtProjectSpec p k := by
  have hnd : (objKeys p.extra).Nodup := hwf.2.2.1
  have havoid : ∀ q ∈ p.extra, q.1 ∉ reservedProjectKeys :=
    fun q hq => (hwf.2.1 q hq).1
  have hex : ∀ kk : String, kk ∈ reservedProjectKeys → lookupF p.extra kk = none :=
    fun kk hk => lookupF_none_of_avoid havoid hk
  have hnd7 : (objKeys (ldProjectBase p)).Nodup := by
    have hkeys : objKeys (ldProjectBase p) =
        ["@context", "@id", "@type", "schema:name", "schema:dateCreated",
         "schema:dateModified", "_name_for_index"] := rfl
    rw [hkeys]
    decide
  have hndout : (objKeys (ldProjectOut p)).Nodup := by
    rw [ldProjectOut]
    exact nodup_keys_setF (nodup_keys_spreadInto p.extra hnd7) "id" (.num p.id)
  have hndr2 : (objKeys (removeKeys (ldProjectOut p) semanticProjectKeys)).Nodup :=
    nodup_keys_removeKeys _ hndout
  have hmain : lookupF (roundTripProjectOut p) k =
      match (if k ∈ semanticProjectKeys then none
             else lookupF (ldProjectOut p) k) with
      | some v => some v
      | none => lookupF (normalizedProjectBase p) k := by
    rw [roundTripProjectOut, lookupF_spreadInto_nodup _ hndr2, lookupF_removeKeys]
  by_cases h1 : k = "id"
  · subst h1
    rw [hmain, if_neg (by decide : ("id" : String) ∉ semanticProjectKeys),
      ldProjectOut_lookup p hnd]
    rfl
  by_cases h2 : k = "name"
  · subst h2
    rw [hmain, if_neg (by decide : ("name" : String) ∉ semanticProjectKeys),
      ldProjectOut_lookup p hnd, hex "name" (by decide)]
    rfl
  by_cases h3 : k = "createdAt"
  · subst h3
    rw [hmain, if_neg (by decide : ("createdAt" : String) ∉ semanticProjectKeys),
      ldProjectOut_lookup p hnd, hex "createdAt" (by decide)]
    rfl
  by_cases h4 : k = "updatedAt"
  · subst h4
    rw [hmain, if_neg (by decide : ("updatedAt" : String) ∉ semanticProjectKeys),
      ldProjectOut_lookup p hnd, hex "updatedAt" (by decide)]
    rfl
  by_cases h5 : k = "_name_for_index"
  · subst h5
    rw [hmain,
      if_neg (by decide : ("_name_for_index" : String) ∉ semanticProjectKeys),
      ldProjectOut_lookup p hnd, hex "_name_for_index" (by decide)]
    rfl
  by_cases hs1 : k = "@context"
  · subst hs1
    rw [hmain, if_pos (by decide)]
    show (none : Option JsValue) = lookupF p.extra "@context"
    exact (hex _ (by decide)).symm
  by_cases hs2 : k = "@id"
  · subst hs2
    rw [hmain, if_pos (by decide)]
    show (none : Option JsValue) = lookupF p.extra "@id"
    exact (hex _ (by decide)).symm
  by_cases hs3 : k = "@type"
  · subst hs3
    rw [hmain, if_pos (by decide)]
    show (none : Option JsValue) = lookupF p.extra "@type"
    exact (hex _ (by decide)).symm
  by_cases hs4 : k = "schema:name"
  · subst hs4
    rw [hmain, if_pos (by decide)]
    show (none : Option JsValue) = lookupF p.extra "schema:name"
    exact (hex _ (by decide)).symm
  by_cases hs5 : k = "schema:dateCreated"
  · subst hs5
    rw [hmain, if_pos (by decide)]
    show (none : Option JsValue) = lookupF p.extra "schema:dateCreated"
    exact (hex _ (by decide)).symm
  by_cases hs6 : k = "schema:dateModified"
  · subst hs6
    rw [hmain, if_pos (by decide)]
    show (none : Option JsValue) = lookupF p.extra "schema:dateModified"
    exact (hex _ (by decide)).symm
  · have hsem : k ∉ semanticProjectKeys := by
      intro hm
      rw [semanticProjectKeys] at hm
      simp only [List.mem_cons, List.not_mem_nil, or_false] at hm
      rcases hm with h | h | h | h | h | h
      exacts [hs1 h, hs2 h, hs3 h, hs4 h, hs5 h, hs6 h]
    have hbase_none : lookupF (ldProjectBase p) k = none := by
      rw [lookupF_eq_none_iff]
      intro hm
      have hkeys : objKeys (ldProjectBase p) =
          ["@context", "@id", "@type", "schema:name", "schema:dateCreated",
           "schema:dateModified", "_name_for_index"] := rfl
      rw [hkeys] at hm
      simp only [List.mem_cons, List.not_mem_nil, or_false] at hm
      rcases hm with h | h | h | h | h | h | h
      exacts [hs1 h, hs2 h, hs3 h, hs4 h, hs5 h, hs6 h, h5 h]
    have hnb_none : lookupF (normalizedProjectBase p) k = none := by
      rw [lookupF_eq_none_iff]
      intro hm
      have hkeys : objKeys (normalizedProjectBase p) =
          ["id", "name", "createdAt", "updatedAt"] := rfl
      rw [hkeys] at hm
      simp only [List.mem_cons, List.not_mem_nil, or_false] at hm
      rcases hm with h | h | h | h
      exacts [h1 h, h2 h, h3 h, h4 h]
    have hspec : rtProjectSpec p k = lookupF p.extra k := by
      rw [rtProjectSpec, if_neg h1, if_neg h2, if_neg h3, if_neg h4, if_neg h5]
    rw [hmain, if_neg hsem, ldProjectOut_lookup p hnd, if_neg h1, hspec]
    cases hval : lookupF p.extra k with
    | some v => simp only [hval]
    | none =>
      simp only [hval, hbase_none, hnb_none]

theorem rtSpecP_agrees (p : SimpleProject) (hwf : p.wf) (k : String)
    (hk : (toObjProjectSpec p k).isSome) :
    rtProjectSpec p k = toObjProjectSpec p k := by
  have hexi : lookupF p.extra "_name_for_index" = none :=
    lookupF_none_of_avoid (fun q hq => (hwf.2.1 q hq).1) (by decide)
  rw [toObjProjectSpec] at hk
  rw [rtProjectSpec, toObjProjectSpec]
  by_cases h1 : k = "id"
  · rw [if_pos h1, if_pos h1]
  rw [if_neg h1, if_neg h1]
  rw [if_neg h1] at hk
  by_cases h2 : k = "name"
  · rw [if_pos h2, if_pos h2]
  rw [if_neg h2, if_neg h2]
  rw [if_neg h2] at hk
  by_cases h3 : k = "createdAt"
  · rw [if_pos h3, if_pos h3]
    rw [if_pos h3] at hk
    cases hoc : p.createdAt with
    | none => rw [hoc] at hk; simp at hk
    | some ts => rfl
  rw [if_neg h3, if_neg h3]
  rw [if_neg h3] at hk
  by_cases h4 : k = "updatedAt"
  · rw [if_pos h4, if_pos h4]
    rw [if_pos h4] at hk
    cases hou : p.updatedAt with
    | none => rw [hou] at hk; simp at hk
    | some ts => rfl
  rw [if_neg h4, if_neg h4]
  rw [if_neg h4] at hk
  by_cases h5 : k = "_name_for_index"
  · rw [if_pos h5]
    subst h5
    rw [hexi] at hk
    simp at hk
  rw [if_neg h5]

theorem rtSpecP_defined (p : SimpleProject) (k : String) (v : JsValue)
    (hv : rtProjectSpec p k = some v) (hne : v ≠ .undef) :
    (toObjProjectSpec p k).isSome ∨ k = "_name_for_index" := by
  rw [rtProjectSpec] at hv
  rw [toObjProjectSpec]
  by_cases h1 : k = "id"
  · rw [if_pos h1]; exact .inl rfl
  rw [if_neg h1]
  rw [if_neg h1] at hv
  by_cases h2 : k = "name"
  · rw [if_pos h2]; exact .inl rfl
  rw [if_neg h2]
  rw [if_neg h2] at hv
  by_cases h3 : k = "createdAt"
  · rw [if_pos h3]
    rw [if_pos h3] at hv
    cases hoc : p.createdAt with
    | none =>
      rw [hoc] at hv
      have : v = JsValue.undef := by
        have := Option.some.inj hv
        rw [← this]
        rfl
      exact absurd this hne
    | some ts => exact .inl rfl
  rw [if_neg h3]
  rw [if_neg h3] at hv
  by_cases h4 : k = "updatedAt"
  · rw [if_pos h4]
    rw [if_pos h4] at hv
    cases hou : p.updatedAt with
    | none =>
      rw [hou] at hv
      have : v = JsValue.undef := by
        have := Option.some.inj hv
        rw [← this]
        rfl
      exact absurd this hne
    | some ts => exact .inl rfl
  rw [if_neg h4]
  rw [if_neg h4] at hv
  by_cases h5 : k = "_name_for_index"
  · exact .inr h5
  rw [if_neg h5] at hv
  exact .inl (by rw [hv]; rfl)

/-- A concrete simple diagram record for instantiating the round-trip
theorem. -/
def witDiagram : SimpleDiagram :=
  ⟨1, 2, jstr "A", jstr "graph TD;", some 0, none, none, []⟩

/-- A concrete simple project record for instantiating the round-trip
theorem. -/
def witProject : SimpleProject :=
  ⟨3, jstr "P", none, some 86400000, []⟩

/-- C2 (amended): for every well-formed simple record — diagram or
project — denormalizing with `toDiagramLD`/`toProjectLD` and normalizing
back succeeds and loses no defined field: every field of the original
record (semantic keys are reserved, ids are nonzero, timestamps
ISO-round-trip) comes back with its value unchanged.  The round trip is
NOT the identity, however: the sole extra defined field it introduces is
`_name_for_index`, carried through from the JSON-LD shape and set to the
record title (diagram) or name (project). -/
theorem normalize_denormalize_roundtrip (d : SimpleDiagram) (hwfd : d.wf)
    (p : SimpleProject) (hwfp : p.wf) :
    (∃ out, roundTripDiagram d.toObj = .ok (.obj out) ∧
      (∀ k, (lookupF d.toObj k).isSome → lookupF out k = lookupF d.toObj k) ∧
      (∀ k v, lookupF out k = some v → v ≠ .undef →
        (lookupF d.toObj k).isSome ∨ k = "_name_for_index") ∧
      getF out "_name_for_index" = .str d.title) ∧
    (∃ out, roundTripProject p.toObj = .ok (.obj out) ∧
      (∀ k, (lookupF p.toObj k).isSome → lookupF out k = lookupF p.toObj k) ∧
      (∀ k v, lookupF out k = some v → v ≠ .undef →
        (lookupF p.toObj k).isSome ∨ k = "_name_for_index") ∧
      getF out "_name_for_index" = .str p.name) := by
  constructor
  · refine ⟨roundTripDiagramOut d, ?_, ?_, ?_, ?_⟩
    · rw [roundTripDiagram, toDiagramLD_toObj d hwfd]
      exact normalizeDiagram_ldOut d hwfd
    · intro k hk
      rw [toObjDiagram_lookup d hwfd k] at hk ⊢
      rw [roundTripDiagramOut_lookup d hwfd k]
      exact rtSpec_agrees d hwfd k hk
    · intro k v hv hne
      rw [roundTripDiagramOut_lookup d hwfd k] at hv
      rw [toObjDiagram_lookup d hwfd k]
      exact rtSpec_defined d k v hv hne
    · rw [getF, roundTripDiagramOut_lookup d hwfd]
      rfl
  · refine ⟨roundTripProjectOut p, ?_, ?_, ?_, ?_⟩
    · rw [roundTripProject, toProjectLD_toObj p hwfp]
      exact normalizeProject_ldOut p hwfp
    · intro k hk
      rw [toObjProject_lookup p hwfp k] at hk ⊢
      rw [roundTripProjectOut_lookup p hwfp k]
      exact rtSpecP_agrees p hwfp k hk
    · intro k v hv hne
      rw [roundTripProjectOut_lookup p hwfp k] at hv
      rw [toObjProject_lookup p hwfp k]
      exact rtSpecP_defined p k v hv hne
    · rw [getF, roundTripProjectOut_lookup p hwfp]
      rfl

theorem isoOfMs_epoch :
    isoOfMs 0 = [49, 57, 55, 48, 45, 48, 49, 45, 48, 49, 84, 48, 48, 58, 48,
      48, 58, 48, 48, 46, 48, 48, 48, 90] := by
  simp [isoOfMs, civilFromDays, pad4, pad3, pad2, padToLen, natToStr]

theorem isoOfMs_day_two :
    isoOfMs 86400000 = [49, 57, 55, 48, 45, 48, 49, 45, 48, 50, 84, 48, 48,
      58, 48, 48, 58, 48, 48, 46, 48, 48, 48, 90] := by
  simp [isoOfMs, civilFromDays, pad4, pad3, pad2, padToLen, natToStr]

set_option maxHeartbeats 4000000 in
theorem witDiagram_wf : witDiagram.wf := by
  refine ⟨by decide, ?_, by decide, ?_, ?_⟩
  · intro q hq
    exact absurd hq (List.not_mem_nil q)
  · intro ts hts
    have h : (some 0 : Option Int) = some ts := hts
    injection h with h2
    subst h2
    rw [isoOfMs_epoch]
    decide
  · intro ts hts
    exact Option.noConfusion (show (none : Option Int) = some ts from hts)

set_option maxHeartbeats 4000000 in
theorem witProject_wf : witProject.wf := by
  refine ⟨by decide, ?_, by decide, ?_, ?_⟩
  · intro q hq
    exact absurd hq (List.not_mem_nil q)
  · intro ts hts
    exact Option.noConfusion (show (none : Option Int) = some ts from hts)
  · intro ts hts
    have h : (some 86400000 : Option Int) = some ts := hts
    injection h with h2
    subst h2
    rw [isoOfMs_day_two]
    decide

theorem normalize_denormalize_roundtrip_witness :
    witDiagram.wf ∧ witProject.wf ∧
    ((∃ out, roundTripDiagram witDiagram.toObj = .ok (.obj out) ∧
      (∀ k, (lookupF witDiagram.toObj k).isSome →
        lookupF out k = lookupF witDiagram.toObj k) ∧
      (∀ k v, lookupF out k = some v → v ≠ .undef →
        (lookupF witDiagram.toObj k).isSome ∨ k = "_name_for_index") ∧
      getF out "_name_for_index" = .str witDiagram.title) ∧
    (∃ out, roundTripProject witProject.toObj = .ok (.obj out) ∧
      (∀ k, (lookupF witProject.toObj k).isSome →
        lookupF out k = lookupF witProject.toObj k) ∧
      (∀ k v, lookupF out k = some v → v ≠ .undef →
        (lookupF witProject.toObj k).isSome ∨ k = "_name_for_index") ∧
      getF out "_name_for_index" = .str witProject.name)) :=
  ⟨witDiagram_wf, witProject_wf,
    normalize_denormalize_roundtrip witDiagram witDiagram_wf witProject witProject_wf⟩

/-- C4 (amended): with the defaults, two consecutive 429 responses
followed by a 200 resolve successfully with the 200's body; the two waits
follow the doubling backoff (1000 ms then 2000 ms), except that a numeric
`Retry-After` header (N seconds), when present, is used for that wait
instead of the computed backoff. -/
theorem two_429_then_200_resolves (h1 h2 : Option Nat) (m1 m2 : JsStr) (b : JsValue) :
    githubFetchDefault [⟨429, h1.map natToStr, m1, .null⟩,
      ⟨429, h2.map natToStr, m2, .null⟩, ⟨200, none, m2, b⟩] =
    (.success b,
      [(match h1 with | some n => (n : Int) * 1000 | none => 1000),
       (match h2 with | some n => (n : Int) * 1000 | none => 2000)]) := by
  cases h1 <;> cases h2 <;>
    simp [githubFetchDefault, githubFetch, githubFetchLoop, respOk, parseIntJs_natToStr]

end MermaidIDE
